import Mathlib

/-! Maze: the hardware protocol core

A shallow embedding of the bare-metal C sources (`mailbox.c`, `framebuffer.c`,
`systimer.c`, `uart.c`, `main.c`) and proofs about them.

Conventions of the embedding

* A machine word is a `Nat`; a truncating cast or a wrapping addition is written
  with an explicit `% 2 ^ w`.
* A memory-mapped register that the code reads is a `List Nat`: the values its
  successive reads will return, oldest first.  A busy-wait loop consumes that list;
  when the list runs out before the awaited condition shows up the function yields
  `none`, which stands for the unbounded stall of the C code.
* Writes to registers are recorded in order (a trace, or the list of bytes handed
  to the UART).
-/

namespace Maze

/-! ## mailbox.c -/

def MAILBOX_RESPONSE : Nat := 0x80000000

def MAILBOX_FULL : Nat := 0x80000000

def MAILBOX_EMPTY : Nat := 0x40000000

/-- Register accesses of `mailbox_query`, in program order. -/
inductive MboxEvent where
  /-- A read of `*MAILBOX1_STATUS` that returned `v`. -/
  | readStatus1 (v : Nat)
  /-- The write `*MAILBOX1_WRITE = v`. -/
  | write1 (v : Nat)
  /-- A read of `*MAILBOX0_STATUS` that returned `v`. -/
  | readStatus0 (v : Nat)
  /-- A read of `*MAILBOX0_READ` that returned `v`. -/
  | read0 (v : Nat)
  /-- The read of `mailbox_buffer[1]` that returned `v`. -/
  | readBuffer1 (v : Nat)
  deriving DecidableEq

/-- The mailbox as the CPU sees it: the global `mailbox_buffer` (word index to word),
the values still to be returned by reads of the three mailbox registers that the code
polls, and the accesses made so far. -/
structure MboxState where
  mailbox_buffer : Nat → Nat
  status1 : List Nat
  status0 : List Nat
  read0 : List Nat
  trace : List MboxEvent

/-- The video core: given the word posted to mailbox 1 and the request in the shared
buffer, the contents of the buffer once the reply is in mailbox 0.  The CPU does not
look at the buffer in between, so this is all it can observe of the coprocessor. -/
abbrev VideoCore := Nat → (Nat → Nat) → (Nat → Nat)

/-- The word `mailbox_query` posts: lines 64-65 of `mailbox.c`.  `bufAddr` is
`(unsigned long)&mailbox_buffer[0]`; the cast to `unsigned int` truncates. -/
def mailboxAddress (bufAddr channel : Nat) : Nat :=
  ((bufAddr % 2 ^ 32) &&& 0xFFFFFFF0) ||| (channel &&& 0xF)

/-- The loop `while (*MAILBOX1_STATUS & MAILBOX_FULL) ;`: the reads made and the values
left in the register stream. -/
def pollFull : List Nat → Option (List MboxEvent × List Nat)
  | [] => none
  | v :: rest =>
    if v &&& MAILBOX_FULL ≠ 0 then
      match pollFull rest with
      | none => none
      | some (ev, rest') => some (MboxEvent.readStatus1 v :: ev, rest')
    else some ([MboxEvent.readStatus1 v], rest)

/-- The loop `while (*MAILBOX0_STATUS & MAILBOX_EMPTY) ;`. -/
def pollEmpty : List Nat → Option (List MboxEvent × List Nat)
  | [] => none
  | v :: rest =>
    if v &&& MAILBOX_EMPTY ≠ 0 then
      match pollEmpty rest with
      | none => none
      | some (ev, rest') => some (MboxEvent.readStatus0 v :: ev, rest')
    else some ([MboxEvent.readStatus0 v], rest)

/-- The `while (1)` loop of `mailbox_query` (lines 75-86): wait for mailbox 0 to be
non-empty, read it, return `mailbox_buffer[1] == MAILBOX_RESPONSE` if the value is the
address that was sent and go round again otherwise.  `buf1` is the word
`mailbox_buffer[1]`.  The recursion is on the stream of `MAILBOX0_READ`; a stream that
is used up means the loop never gets its answer. -/
def awaitResponse (address buf1 : Nat) :
    List Nat → List Nat → Option (Nat × List MboxEvent × List Nat × List Nat)
  | _, [] => none
  | st0, r :: rs =>
    match pollEmpty st0 with
    | none => none
    | some (ev, st0') =>
      if r = address then
        some ((if buf1 = MAILBOX_RESPONSE then 1 else 0),
          ev ++ [MboxEvent.read0 r, MboxEvent.readBuffer1 buf1], st0', rs)
      else
        match awaitResponse address buf1 st0' rs with
        | none => none
        | some (res, ev', st0'', rs') => some (res, ev ++ MboxEvent.read0 r :: ev', st0'', rs')

/-- The function `mailbox_query` of `mailbox.c`: the returned `int` and the state
after the call. -/
def mailbox_query (bufAddr channel : Nat) (vc : VideoCore) (s : MboxState) :
    Option (Nat × MboxState) :=
  let address := mailboxAddress bufAddr channel
  match pollFull s.status1 with
  | none => none
  | some (ev1, st1) =>
    let buf := vc address s.mailbox_buffer
    match awaitResponse address (buf 1) s.status0 s.read0 with
    | none => none
    | some (res, ev2, st0, rd0) =>
      some (res,
        { mailbox_buffer := buf, status1 := st1, status0 := st0, read0 := rd0,
          trace := s.trace ++ ev1 ++ MboxEvent.write1 address :: ev2 })

/-- The values written to `MAILBOX1_WRITE` in a trace. -/
def writesOf : List MboxEvent → List Nat
  | [] => []
  | MboxEvent.write1 v :: ev => v :: writesOf ev
  | _ :: ev => writesOf ev

/-- The values read from `MAILBOX0_READ` in a trace. -/
def outboundOf : List MboxEvent → List Nat
  | [] => []
  | MboxEvent.read0 v :: ev => v :: outboundOf ev
  | _ :: ev => outboundOf ev

/-- How many of the coming reads of `MAILBOX0_STATUS` have the empty bit clear. -/
def notEmptyCount (st0 : List Nat) : Nat :=
  (st0.filter (fun v => decide (v &&& MAILBOX_EMPTY = 0))).length

/-! ## uart.c -/

/-- The mini UART as the code sees it: the values still to be returned by reads of
`AUX_MU_LSR`, and the values written to `AUX_MU_IO` so far, oldest first. -/
structure UartState where
  lsr : List Nat
  out : List Nat

/-- The loop `do { nop } while (!(*AUX_MU_LSR & 0x20));` of `uart_putc`: what is left of
the status stream once a reading has the transmitter-empty bit set. -/
def waitTransmitter : List Nat → Option (List Nat)
  | [] => none
  | v :: rest => if v &&& 0x20 = 0 then waitTransmitter rest else some rest

/-- The function `uart_putc` of `uart.c`. -/
def uart_putc (c : Nat) (u : UartState) : Option UartState :=
  match waitTransmitter u.lsr with
  | none => none
  | some rest => some { lsr := rest, out := u.out ++ [c] }

/-- The function `uart_puts` of `uart.c`.  The argument is the memory `s` points to,
byte by byte; the loop stops at the first zero byte (or where the listed memory ends). -/
def uart_puts : List Nat → UartState → Option UartState
  | [], u => some u
  | c :: cs, u =>
    if c = 0 then some u
    else
      match (if c = 0x0A then uart_putc 0x0D u else some u) with
      | none => none
      | some u1 =>
        match uart_putc c u1 with
        | none => none
        | some u2 => uart_puts cs u2

/-- The body of the loop of `uart_puthex` up to the call of `uart_putc`: the character
for the 4-bit unit of `value` at bit `i`. -/
def hexDigit (value i : Nat) : Nat :=
  let digit := (value >>> i) &&& 0xF
  if digit > 9 then digit + 0x37 else digit + 0x30

/-- The loop `for (i = 28; i >= 0; i -= 4)` of `uart_puthex`, entered with `i = 4 * k`. -/
def uart_puthex_loop (value : Nat) : Nat → UartState → Option UartState
  | 0, u => uart_putc (hexDigit value 0) u
  | k + 1, u =>
    match uart_putc (hexDigit value (4 * (k + 1))) u with
    | none => none
    | some u' => uart_puthex_loop value k u'

/-- The function `uart_puthex` of `uart.c`. -/
def uart_puthex (value : Nat) (u : UartState) : Option UartState :=
  uart_puthex_loop value 7 u

/-- The bytes of a C string literal (without the terminating zero). -/
def cstr (s : String) : List Nat := s.toList.map Char.toNat

/-- How many of the coming reads of `AUX_MU_LSR` have the transmitter-empty bit set. -/
def txReady (lsr : List Nat) : Nat :=
  (lsr.filter (fun v => decide (v &&& 0x20 ≠ 0))).length

/-- What `uart_puts` is to transmit for a string: the bytes before the first zero, a
carriage return put in front of every line feed. -/
def crlf : List Nat → List Nat
  | [] => []
  | c :: cs => if c = 0 then [] else if c = 0x0A then 0x0D :: 0x0A :: crlf cs else c :: crlf cs

/-- What `uart_puthex` is to transmit: the eight digits, most significant first. -/
def hexDigits (value : Nat) : List Nat :=
  [hexDigit value 28, hexDigit value 24, hexDigit value 20, hexDigit value 16,
    hexDigit value 12, hexDigit value 8, hexDigit value 4, hexDigit value 0]

/-- A call of one of the two printing functions. -/
inductive UartCall where
  | puts (s : List Nat)
  | puthex (value : Nat)

/-- A straight-line sequence of printing calls, run in order. -/
def uartCalls : List UartCall → UartState → Option UartState
  | [], u => some u
  | UartCall.puts s :: cs, u =>
    match uart_puts s u with
    | none => none
    | some u' => uartCalls cs u'
  | UartCall.puthex v :: cs, u =>
    match uart_puthex v u with
    | none => none
    | some u' => uartCalls cs u'

/-- The bytes a printing call is to transmit. -/
def UartCall.bytes : UartCall → List Nat
  | UartCall.puts s => crlf s
  | UartCall.puthex v => hexDigits v

/-- The bytes a sequence of printing calls is to transmit. -/
def callBytes : List UartCall → List Nat
  | [] => []
  | c :: cs => c.bytes ++ callBytes cs

/-! ## mailbox.h and framebuffer.c -/

def CHANNEL_PROPERTY_TAGS_ARMTOVC : Nat := 8

def MAILBOX_REQUEST : Nat := 0

def TAG_ALLOCATE_BUFFER : Nat := 0x00040001

def TAG_SET_PHYSICAL_WIDTH_HEIGHT : Nat := 0x00048003

def TAG_SET_VIRTUAL_WIDTH_HEIGHT : Nat := 0x00048004

def TAG_SET_DEPTH : Nat := 0x00048005

def TAG_SET_PIXEL_ORDER : Nat := 0x00048006

def TAG_GET_PITCH : Nat := 0x00040008

def TAG_SET_VIRTUAL_OFFSET : Nat := 0x00048009

def TAG_LAST : Nat := 0

def FRAMEBUFFER_WIDTH : Nat := 1024

def FRAMEBUFFER_HEIGHT : Nat := 768

def FRAMEBUFFER_DEPTH : Nat := 32

def FRAMEBUFFER_ALIGNMENT : Nat := 4

def VIRTUAL_X_OFFSET : Nat := 0

def VIRTUAL_Y_OFFSET : Nat := 0

def PIXEL_ORDER_BGR : Nat := 0

/-- The assignment `mailbox_buffer[i] = v`. -/
def storeWord (buf : Nat → Nat) (i v : Nat) : Nat → Nat :=
  fun j => if j = i then v else buf j

/-- A sequence of assignments `mailbox_buffer[i] = v`, done in order. -/
def storeWords (buf : Nat → Nat) : List (Nat × Nat) → (Nat → Nat)
  | [] => buf
  | (i, v) :: ws => storeWords (storeWord buf i v) ws

/-- The assignments with which `initFrameBuffer` builds its request (lines 64-107 of
`framebuffer.c`), as pairs of index and value, in source order. -/
def initRequestWrites : List (Nat × Nat) :=
  [(0, 35 * 4), (1, MAILBOX_REQUEST),
   (2, TAG_SET_PHYSICAL_WIDTH_HEIGHT), (3, 8), (4, 8),
   (5, FRAMEBUFFER_WIDTH), (6, FRAMEBUFFER_HEIGHT),
   (7, TAG_SET_VIRTUAL_WIDTH_HEIGHT), (8, 8), (9, 8),
   (10, FRAMEBUFFER_WIDTH), (11, FRAMEBUFFER_HEIGHT),
   (12, TAG_SET_VIRTUAL_OFFSET), (13, 8), (14, 8),
   (15, VIRTUAL_X_OFFSET), (16, VIRTUAL_Y_OFFSET),
   (17, TAG_SET_DEPTH), (18, 4), (19, 4), (20, FRAMEBUFFER_DEPTH),
   (21, TAG_SET_PIXEL_ORDER), (22, 4), (23, 4), (24, PIXEL_ORDER_BGR),
   (25, TAG_ALLOCATE_BUFFER), (26, 8), (27, 8), (28, FRAMEBUFFER_ALIGNMENT), (29, 0),
   (30, TAG_GET_PITCH), (31, 4), (32, 4), (33, 0),
   (34, TAG_LAST)]

/-- The mailbox state with the shared buffer replaced by `buf`. -/
def setBuffer (m : MboxState) (buf : Nat → Nat) : MboxState :=
  { mailbox_buffer := buf, status1 := m.status1, status0 := m.status0, read0 := m.read0,
    trace := m.trace }

/-- The globals of `framebuffer.c` together with the devices `initFrameBuffer` uses. -/
structure FbState where
  frameBuffer : Nat
  frameBufferWidth : Nat
  frameBufferHeight : Nat
  frameBufferPitch : Nat
  frameBufferDepth : Nat
  frameBufferPixelOrder : Nat
  frameBufferSize : Nat
  mbox : MboxState
  uart : UartState

/-- The printing calls of the success branch of `initFrameBuffer`, in source order;
`address` is the (masked) word `mailbox_buffer[28]`. -/
def settingsCalls (width height pitch depth pixelOrder address size : Nat) : List UartCall :=
  [UartCall.puts (cstr "Frame buffer settings:\n"),
   UartCall.puts (cstr "    width:       0x"), UartCall.puthex width,
   UartCall.puts (cstr " pixels\n"),
   UartCall.puts (cstr "    height:      0x"), UartCall.puthex height,
   UartCall.puts (cstr " pixels\n"),
   UartCall.puts (cstr "    pitch:       0x"), UartCall.puthex pitch,
   UartCall.puts (cstr " bytes per row\n"),
   UartCall.puts (cstr "    depth:       0x"), UartCall.puthex depth,
   UartCall.puts (cstr " bits per pixel\n"),
   UartCall.puts (cstr "    pixel order: 0x"), UartCall.puthex pixelOrder,
   UartCall.puts (cstr " (0=BGR, 1=RGB)\n"),
   UartCall.puts (cstr "    address:     0x"), UartCall.puthex address,
   UartCall.puts (cstr "\n"),
   UartCall.puts (cstr "    size:        0x"), UartCall.puthex size,
   UartCall.puts (cstr " bytes\n")]

/-- The function `initFrameBuffer` of `framebuffer.c`.  `bufAddr` is the address of
`mailbox_buffer` and `vc` the video core that serves the request. -/
def initFrameBuffer (bufAddr : Nat) (vc : VideoCore) (s : FbState) : Option FbState :=
  let request := storeWords s.mbox.mailbox_buffer initRequestWrites
  match mailbox_query bufAddr CHANNEL_PROPERTY_TAGS_ARMTOVC vc (setBuffer s.mbox request) with
  | none => none
  | some (r, m) =>
    if r ≠ 0 then
      let buf := storeWord m.mailbox_buffer 28 (m.mailbox_buffer 28 &&& 0x3FFFFFFF)
      match uartCalls (settingsCalls (buf 5) (buf 6) (buf 33) (buf 20) (buf 24) (buf 28) (buf 29))
          s.uart with
      | none => none
      | some u =>
        some { frameBuffer := buf 28
               frameBufferWidth := buf 5
               frameBufferHeight := buf 6
               frameBufferPitch := buf 33
               frameBufferDepth := buf 20
               frameBufferPixelOrder := buf 24
               frameBufferSize := buf 29
               mbox := setBuffer m buf
               uart := u }
    else
      match uartCalls [UartCall.puts (cstr "Cannot initialize frame buffer\n")] s.uart with
      | none => none
      | some u =>
        some { frameBuffer := s.frameBuffer
               frameBufferWidth := s.frameBufferWidth
               frameBufferHeight := s.frameBufferHeight
               frameBufferPitch := s.frameBufferPitch
               frameBufferDepth := s.frameBufferDepth
               frameBufferPixelOrder := s.frameBufferPixelOrder
               frameBufferSize := s.frameBufferSize
               mbox := m
               uart := u }

/-- The property-tag sequence of a mailbox buffer as the data model has it: from word
`pos` on, a tag is its identifier, its value-buffer size in bytes, its length field, and
then `size / 4` value words; the sequence ends at a zero identifier.  Yields the tags met
(identifier, size, length) and the index of the word where the walk stopped. -/
def walkTags (buf : Nat → Nat) : Nat → Nat → List (Nat × Nat × Nat) × Nat
  | 0, pos => ([], pos)
  | fuel + 1, pos =>
    if buf pos = 0 then ([], pos)
    else
      let r := walkTags buf fuel (pos + 3 + buf (pos + 1) / 4)
      ((buf pos, buf (pos + 1), buf (pos + 2)) :: r.1, r.2)

/-! ## systimer.c -/

/-- The system timer as the code sees it: the values still to be returned by reads of
`SYSTEM_TIMER_CHI` and of `SYSTEM_TIMER_CLO` (32-bit words). -/
structure TimerState where
  chi : List Nat
  clo : List Nat

/-- The function `get_timer_counter` of `systimer.c`: reads high, low, high again, and
when the two high readings differ, high and low once more; returns
`((unsigned long)high << 32) | low` and the timer after the reads. -/
def get_timer_counter (t : TimerState) : Option (Nat × TimerState) :=
  match t.chi, t.clo with
  | high :: high' :: chi, low :: clo =>
    if high ≠ high' then
      match chi, clo with
      | high2 :: chi', low2 :: clo' => some ((high2 <<< 32) ||| low2, { chi := chi', clo := clo' })
      | _, _ => none
    else some ((high <<< 32) ||| low, { chi := chi, clo := clo })
  | _, _ => none

/-- The loop `while (get_timer_counter() < target_counter) ;` of `microsecond_delay`:
the counter values read, in order, and the timer afterwards.  The first argument bounds
the number of rounds. -/
def delayLoop (target_counter : Nat) : Nat → TimerState → Option (List Nat × TimerState)
  | 0, _ => none
  | fuel + 1, t =>
    match get_timer_counter t with
    | none => none
    | some (c, t') =>
      if c < target_counter then
        match delayLoop target_counter fuel t' with
        | none => none
        | some (rs, t'') => some (c :: rs, t'')
      else some ([c], t')

/-- The function `microsecond_delay` of `systimer.c`: the counter values it read, in
order, and the timer afterwards.  Every call of `get_timer_counter` uses up at least one
reading of the low register, so the loop can make no more than `clo.length + 1` rounds
and that bound never cuts it short. -/
def microsecond_delay (interval : Nat) (t : TimerState) : Option (List Nat × TimerState) :=
  match get_timer_counter t with
  | none => none
  | some (current_counter, t1) =>
    if current_counter = 0 then some ([current_counter], t1)
    else
      let target_counter := (current_counter + interval) % 2 ^ 64
      match delayLoop target_counter (t1.clo.length + 1) t1 with
      | none => none
      | some (rs, t2) => some (current_counter :: rs, t2)

/-! ## main.c: the GPIO routines and the controller read -/

/-- The GPIO registers the routines of `main.c` access. -/
inductive GpioReg where
  | GPFSEL0
  | GPFSEL1
  | GPPUD
  | GPPUDCLK0
  | GPSET0
  | GPCLR0
  | GPLEV0
  deriving DecidableEq

/-- What the GPIO routines do, in program order: a register write, a register read with
the value it returned, one `nop` of a wait loop, a call `microsecond_delay(interval)`. -/
inductive GpioEvent where
  | write (reg : GpioReg) (v : Nat)
  | read (reg : GpioReg) (v : Nat)
  | nop
  | delay (interval : Nat)
  deriving DecidableEq

/-- The GPIO block and the timer as the code sees them: the contents of the function
select, pull-control and pull-clock registers, the values still to be returned by reads
of the pin level register `GPLEV0`, the system timer, and the accesses made so far. -/
structure GpioState where
  gpfsel0 : Nat
  gpfsel1 : Nat
  gppud : Nat
  gppudclk0 : Nat
  gplev0 : List Nat
  timer : TimerState
  trace : List GpioEvent

/-- The state with one more event on its trace. -/
def logEvent (e : GpioEvent) (s : GpioState) : GpioState :=
  { gpfsel0 := s.gpfsel0, gpfsel1 := s.gpfsel1, gppud := s.gppud, gppudclk0 := s.gppudclk0,
    gplev0 := s.gplev0, timer := s.timer, trace := s.trace ++ [e] }

/-- The assignment `*reg = v`: the register takes the value (the set and clear registers
keep none) and the write is logged. -/
def mmioWrite (reg : GpioReg) (v : Nat) (s : GpioState) : GpioState :=
  let s' := logEvent (GpioEvent.write reg v) s
  match reg with
  | GpioReg.GPFSEL0 =>
    { gpfsel0 := v, gpfsel1 := s'.gpfsel1, gppud := s'.gppud, gppudclk0 := s'.gppudclk0,
      gplev0 := s'.gplev0, timer := s'.timer, trace := s'.trace }
  | GpioReg.GPFSEL1 =>
    { gpfsel0 := s'.gpfsel0, gpfsel1 := v, gppud := s'.gppud, gppudclk0 := s'.gppudclk0,
      gplev0 := s'.gplev0, timer := s'.timer, trace := s'.trace }
  | GpioReg.GPPUD =>
    { gpfsel0 := s'.gpfsel0, gpfsel1 := s'.gpfsel1, gppud := v, gppudclk0 := s'.gppudclk0,
      gplev0 := s'.gplev0, timer := s'.timer, trace := s'.trace }
  | GpioReg.GPPUDCLK0 =>
    { gpfsel0 := s'.gpfsel0, gpfsel1 := s'.gpfsel1, gppud := s'.gppud, gppudclk0 := v,
      gplev0 := s'.gplev0, timer := s'.timer, trace := s'.trace }
  | _ => s'

/-- The wait `r = n; while (r--) { asm volatile("nop"); }`. -/
def nopLoop : Nat → GpioState → GpioState
  | 0, s => s
  | r + 1, s => nopLoop r (logEvent GpioEvent.nop s)

/-- The 32-bit complement `~x` of a 32-bit word. -/
def not32 (x : Nat) : Nat := 0xFFFFFFFF ^^^ x

/-- The function `init_GPIO9_to_output` of `main.c`. -/
def init_GPIO9_to_output (s : GpioState) : GpioState :=
  let r := s.gpfsel0
  let s := logEvent (GpioEvent.read GpioReg.GPFSEL0 r) s
  let r := r &&& not32 (0x7 <<< 27)
  let r := r ||| (0x1 <<< 27)
  let s := mmioWrite GpioReg.GPFSEL0 r s
  let s := mmioWrite GpioReg.GPPUD 0x0 s
  let s := nopLoop 150 s
  let s := mmioWrite GpioReg.GPPUDCLK0 (0x1 <<< 9) s
  let s := nopLoop 150 s
  mmioWrite GpioReg.GPPUDCLK0 0 s

/-- The function `init_GPIO11_to_output` of `main.c`. -/
def init_GPIO11_to_output (s : GpioState) : GpioState :=
  let r := s.gpfsel1
  let s := logEvent (GpioEvent.read GpioReg.GPFSEL1 r) s
  let r := r &&& not32 (0x7 <<< 3)
  let r := r ||| (0x1 <<< 3)
  let s := mmioWrite GpioReg.GPFSEL1 r s
  let s := mmioWrite GpioReg.GPPUD 0x0 s
  let s := nopLoop 150 s
  let s := mmioWrite GpioReg.GPPUDCLK0 (0x1 <<< 11) s
  let s := nopLoop 150 s
  mmioWrite GpioReg.GPPUDCLK0 0 s

/-- The function `init_GPIO10_to_input` of `main.c`. -/
def init_GPIO10_to_input (s : GpioState) : GpioState :=
  let r := s.gpfsel1
  let s := logEvent (GpioEvent.read GpioReg.GPFSEL1 r) s
  let r := r &&& not32 (0x7 <<< 0)
  let s := mmioWrite GpioReg.GPFSEL1 r s
  let s := mmioWrite GpioReg.GPPUD 0x0 s
  let s := nopLoop 150 s
  let s := mmioWrite GpioReg.GPPUDCLK0 (0x1 <<< 10) s
  let s := nopLoop 150 s
  mmioWrite GpioReg.GPPUDCLK0 0 s

/-- The function `set_GPIO9` of `main.c`. -/
def set_GPIO9 (s : GpioState) : GpioState := mmioWrite GpioReg.GPSET0 (0x1 <<< 9) s

/-- The function `clear_GPIO9` of `main.c`. -/
def clear_GPIO9 (s : GpioState) : GpioState := mmioWrite GpioReg.GPCLR0 (0x1 <<< 9) s

/-- The function `set_GPIO11` of `main.c`. -/
def set_GPIO11 (s : GpioState) : GpioState := mmioWrite GpioReg.GPSET0 (0x1 <<< 11) s

/-- The function `clear_GPIO11` of `main.c`. -/
def clear_GPIO11 (s : GpioState) : GpioState := mmioWrite GpioReg.GPCLR0 (0x1 <<< 11) s

/-- The function `get_GPIO10` of `main.c`: reads `GPLEV0` and returns `(r >> 10) & 0x1`.
No reading left in the stream means the modelled run ends here. -/
def get_GPIO10 (s : GpioState) : Option (Nat × GpioState) :=
  match s.gplev0 with
  | [] => none
  | r :: rest =>
    some ((r >>> 10) &&& 0x1,
      { gpfsel0 := s.gpfsel0, gpfsel1 := s.gpfsel1, gppud := s.gppud, gppudclk0 := s.gppudclk0,
        gplev0 := rest, timer := s.timer,
        trace := s.trace ++ [GpioEvent.read GpioReg.GPLEV0 r] })

/-- A call `microsecond_delay(interval)` from the GPIO code: the timer moves on and the
call is logged; `none` when the delay never ends. -/
def delayCall (interval : Nat) (s : GpioState) : Option GpioState :=
  match microsecond_delay interval s.timer with
  | none => none
  | some (_, t) =>
    some { gpfsel0 := s.gpfsel0, gpfsel1 := s.gpfsel1, gppud := s.gppud,
           gppudclk0 := s.gppudclk0, gplev0 := s.gplev0, timer := t,
           trace := s.trace ++ [GpioEvent.delay interval] }

/-- The loop `for (i = 0; i < 16; i++)` of `get_SNES`, with `k` rounds still to go,
entered with the loop variable `i` and the accumulator `data` (an `unsigned short`). -/
def get_SNES_loop : Nat → Nat → Nat → GpioState → Option (Nat × GpioState)
  | 0, _, data, s => some (data, s)
  | k + 1, i, data, s =>
    match delayCall 6 s with
    | none => none
    | some s1 =>
      match get_GPIO10 (clear_GPIO11 s1) with
      | none => none
      | some (value, s2) =>
        let data' := if value = 0 then (data ||| (0x1 <<< i)) % 2 ^ 16 else data
        match delayCall 6 s2 with
        | none => none
        | some s3 => get_SNES_loop k (i + 1) data' (set_GPIO11 s3)

/-- The function `get_SNES` of `main.c`: the returned `unsigned short` and the state
after the call. -/
def get_SNES (s : GpioState) : Option (Nat × GpioState) :=
  match delayCall 12 (set_GPIO9 s) with
  | none => none
  | some s1 => get_SNES_loop 16 0 0 (clear_GPIO9 s1)

/-- A run of calls of `microsecond_delay`, one after the other, with the given
intervals: the timer after the last, `none` when one of them never ends. -/
def runDelays : List Nat → TimerState → Option TimerState
  | [], t => some t
  | n :: ns, t =>
    match microsecond_delay n t with
    | none => none
    | some (_, t') => runDelays ns t'

/-- The level of the DATA line (pin 10) in a reading of `GPLEV0`. -/
def dataLevel (r : Nat) : Nat := (r >>> 10) &&& 0x1

/-- The value the loop of `get_SNES` builds in `data`, as a function of the `GPLEV0`
readings of its rounds alone: entered with loop variable `i` and accumulator `data`. -/
def snesData : List Nat → Nat → Nat → Nat
  | [], _, data => data
  | r :: rs, i, data =>
    snesData rs (i + 1) (if dataLevel r = 0 then (data ||| (0x1 <<< i)) % 2 ^ 16 else data)

/-- The `GPLEV0` readings in a trace, in order. -/
def levelReads : List GpioEvent → List Nat
  | [] => []
  | GpioEvent.read GpioReg.GPLEV0 v :: ev => v :: levelReads ev
  | _ :: ev => levelReads ev

/-- The accesses of one round of the read loop of a controller read, for the `GPLEV0`
reading `r`. -/
def clockPulse (r : Nat) : List GpioEvent :=
  [GpioEvent.delay 6, GpioEvent.write GpioReg.GPCLR0 (0x1 <<< 11),
   GpioEvent.read GpioReg.GPLEV0 r, GpioEvent.delay 6,
   GpioEvent.write GpioReg.GPSET0 (0x1 <<< 11)]

/-- The accesses of a controller read as the protocol has them, for the `GPLEV0`
readings `rs`: latch high, 12 microseconds, latch low, then a clock pulse for every
reading. -/
def snesTrace (rs : List Nat) : List GpioEvent :=
  [GpioEvent.write GpioReg.GPSET0 (0x1 <<< 9), GpioEvent.delay 12,
   GpioEvent.write GpioReg.GPCLR0 (0x1 <<< 9)] ++ rs.flatMap clockPulse

/-! ## uart.c: receiving and initialisation -/

/-- Register accesses of `uart_getc`, in program order. -/
inductive RxEvent where
  /-- A read of `*AUX_MU_LSR` that returned `v`. -/
  | readLSR (v : Nat)
  /-- A read of `*AUX_MU_IO` that returned `v`. -/
  | readIO (v : Nat)
  deriving DecidableEq

/-- The mini UART as `uart_getc` sees it: the values still to be returned by reads of
`AUX_MU_LSR` and of `AUX_MU_IO`, and the accesses made so far. -/
structure UartRx where
  lsr : List Nat
  io : List Nat
  trace : List RxEvent

/-- The loop `do { nop } while (!(*AUX_MU_LSR & 0x1));` of `uart_getc`: the reads made
and what is left of the status stream. -/
def waitReceiver : List Nat → Option (List RxEvent × List Nat)
  | [] => none
  | v :: rest =>
    if v &&& 0x1 = 0 then
      match waitReceiver rest with
      | none => none
      | some (ev, rest') => some (RxEvent.readLSR v :: ev, rest')
    else some ([RxEvent.readLSR v], rest)

/-- The function `uart_getc` of `uart.c`: the returned `char` (as the byte 0..255 it
holds) and the UART after the call.  The cast `(char)` keeps the low 8 bits. -/
def uart_getc (u : UartRx) : Option (Nat × UartRx) :=
  match waitReceiver u.lsr with
  | none => none
  | some (ev, lsr') =>
    match u.io with
    | [] => none
    | v :: io' =>
      let r := v % 2 ^ 8
      some ((if r = 0x0D then 0x0A else r),
        { lsr := lsr', io := io', trace := u.trace ++ ev ++ [RxEvent.readIO v] })

/-- The registers `uart_init` accesses. -/
inductive AuxReg where
  | GPFSEL1
  | GPPUD
  | GPPUDCLK0
  | AUX_ENABLE
  | AUX_MU_IER
  | AUX_MU_CNTL
  | AUX_MU_LCR
  | AUX_MU_MCR
  | AUX_MU_IIR
  | AUX_MU_BAUD
  deriving DecidableEq

/-- What `uart_init` does, in program order: a register write, a register read with the
value it returned, one `nop` of a wait loop. -/
inductive InitEvent where
  | write (reg : AuxReg) (v : Nat)
  | read (reg : AuxReg) (v : Nat)
  | nop
  deriving DecidableEq

/-- The registers `uart_init` reads back (`GPFSEL1` and `AUX_ENABLE`) and the accesses
made so far. -/
structure InitState where
  gpfsel1 : Nat
  aux_enable : Nat
  trace : List InitEvent

/-- The assignment `*reg = v` in `uart_init`. -/
def initWrite (reg : AuxReg) (v : Nat) (s : InitState) : InitState :=
  match reg with
  | AuxReg.GPFSEL1 =>
    { gpfsel1 := v, aux_enable := s.aux_enable, trace := s.trace ++ [InitEvent.write reg v] }
  | AuxReg.AUX_ENABLE =>
    { gpfsel1 := s.gpfsel1, aux_enable := v, trace := s.trace ++ [InitEvent.write reg v] }
  | _ =>
    { gpfsel1 := s.gpfsel1, aux_enable := s.aux_enable,
      trace := s.trace ++ [InitEvent.write reg v] }

/-- A logged register read in `uart_init`. -/
def initRead (reg : AuxReg) (v : Nat) (s : InitState) : InitState :=
  { gpfsel1 := s.gpfsel1, aux_enable := s.aux_enable, trace := s.trace ++ [InitEvent.read reg v] }

/-- The wait `r = n; while (r--) { asm volatile("nop"); }` of `uart_init`. -/
def initNops : Nat → InitState → InitState
  | 0, s => s
  | r + 1, s =>
    initNops r
      { gpfsel1 := s.gpfsel1, aux_enable := s.aux_enable, trace := s.trace ++ [InitEvent.nop] }

/-- The function `uart_init` of `uart.c`. -/
def uart_init (s : InitState) : InitState :=
  let r := s.gpfsel1
  let s := initRead AuxReg.GPFSEL1 r s
  let r := r &&& not32 ((0x7 <<< 12) ||| (0x7 <<< 15))
  let r := r ||| ((0x2 <<< 12) ||| (0x2 <<< 15))
  let s := initWrite AuxReg.GPFSEL1 r s
  let s := initWrite AuxReg.GPPUD 0x0 s
  let s := initNops 150 s
  let s := initWrite AuxReg.GPPUDCLK0 ((0x1 <<< 14) ||| (0x1 <<< 15)) s
  let s := initNops 150 s
  let s := initWrite AuxReg.GPPUDCLK0 0 s
  let e := s.aux_enable
  let s := initRead AuxReg.AUX_ENABLE e s
  let s := initWrite AuxReg.AUX_ENABLE (e ||| 0x1) s
  let s := initWrite AuxReg.AUX_MU_IER 0 s
  let s := initWrite AuxReg.AUX_MU_CNTL 0 s
  let s := initWrite AuxReg.AUX_MU_LCR 0x3 s
  let s := initWrite AuxReg.AUX_MU_MCR 0 s
  let s := initWrite AuxReg.AUX_MU_IIR 0xc6 s
  let s := initWrite AuxReg.AUX_MU_BAUD 270 s
  initWrite AuxReg.AUX_MU_CNTL 0x3 s

/-- The state with an empty trace, to look at the accesses of one call alone. -/
def clearTrace (s : InitState) : InitState :=
  { gpfsel1 := s.gpfsel1, aux_enable := s.aux_enable, trace := [] }

/-- The register writes in a trace of `uart_init`, in order. -/
def initWrites : List InitEvent → List (AuxReg × Nat)
  | [] => []
  | InitEvent.write reg v :: ev => (reg, v) :: initWrites ev
  | _ :: ev => initWrites ev

/-! ## framebuffer.c: drawSquare -/

/-- What `drawSquare` works on: the global `frameBufferWidth` and the memory `frameBuffer`
points to, as 32-bit pixels by index. -/
structure FrameBuf where
  frameBufferWidth : Nat
  pixel : Nat → Nat

/-- The index `(row * frameBufferWidth) + column` of `drawSquare`: both `int`s are
converted to `unsigned int` and the arithmetic is modulo `2 ^ 32`. -/
def pixelIndex (row column : Int) (width : Nat) : Nat :=
  ((row % 2 ^ 32).toNat * width + (column % 2 ^ 32).toNat) % 2 ^ 32

/-- The inner loop `for (column = columnStart; column < columnEnd; column++)` of
`drawSquare` with `n` rounds still to go, entered with the loop variable `column`. -/
def columnLoop (color width : Nat) (row : Int) : Nat → Int → (Nat → Nat) → (Nat → Nat)
  | 0, _, px => px
  | n + 1, column, px =>
    columnLoop color width row n (column + 1) (storeWord px (pixelIndex row column width) color)

/-- The outer loop `for (row = rowStart; row < rowEnd; row++)` of `drawSquare` with `m`
rounds still to go, entered with the loop variable `row`. -/
def rowLoop (color width : Nat) (columnStart columnEnd : Int) :
    Nat → Int → (Nat → Nat) → (Nat → Nat)
  | 0, _, px => px
  | m + 1, row, px =>
    rowLoop color width columnStart columnEnd m (row + 1)
      (columnLoop color width row (columnEnd - columnStart).toNat columnStart px)

/-- The function `drawSquare` of `framebuffer.c`.  The `int` additions are taken without
overflow; a loop `for (v = a; v < b; v++)` makes `(b - a).toNat` rounds. -/
def drawSquare (rowStart columnStart squareSize : Int) (color : Nat) (fb : FrameBuf) :
    FrameBuf :=
  let rowEnd := rowStart + squareSize
  let columnEnd := columnStart + squareSize
  { frameBufferWidth := fb.frameBufferWidth
    pixel := rowLoop color fb.frameBufferWidth columnStart columnEnd
      (rowEnd - rowStart).toNat rowStart fb.pixel }

/-! ## main.c: the maze and the input-dispatch loop -/

def WHITE : Nat := 0x00FFFFFF

def BLACK : Nat := 0x00000000

def RED : Nat := 0x00FF0000

def GREEN : Nat := 0x00008000

def BUTTON_START : Nat := 1 <<< 3

def BUTTON_UP : Nat := 1 <<< 4

def BUTTON_DOWN : Nat := 1 <<< 5

def BUTTON_LEFT : Nat := 1 <<< 6

def BUTTON_RIGHT : Nat := 1 <<< 7

/-- The table `int maze[12][16]` of `main.c`: 1 is a wall, 0 a free cell, 2 the start and
3 the exit. -/
def maze : List (List Int) :=
  [[1, 1, 1, 1, 1, 1, 1, 1, 1, 1, 1, 1, 1, 1, 1, 1],
   [1, 0, 1, 0, 1, 0, 0, 0, 0, 0, 1, 0, 0, 0, 0, 1],
   [2, 0, 0, 0, 1, 0, 1, 0, 1, 0, 0, 0, 1, 1, 0, 1],
   [1, 0, 1, 1, 1, 0, 1, 0, 1, 1, 1, 1, 1, 1, 0, 1],
   [1, 0, 0, 1, 0, 0, 1, 0, 0, 0, 0, 0, 0, 1, 0, 1],
   [1, 1, 0, 0, 0, 1, 1, 1, 1, 1, 0, 1, 1, 1, 0, 1],
   [1, 0, 0, 1, 0, 1, 0, 0, 0, 1, 0, 1, 0, 0, 0, 1],
   [1, 0, 1, 1, 0, 1, 0, 1, 1, 1, 0, 1, 0, 1, 1, 1],
   [1, 0, 0, 1, 0, 1, 0, 1, 0, 1, 0, 1, 0, 1, 0, 3],
   [1, 1, 0, 1, 0, 0, 0, 1, 0, 1, 0, 1, 1, 1, 0, 1],
   [1, 0, 0, 1, 0, 1, 0, 0, 0, 1, 0, 0, 0, 0, 0, 1],
   [1, 1, 1, 1, 1, 1, 1, 1, 1, 1, 1, 1, 1, 1, 1, 1]]

/-- The access `maze[y][x]`; `none` when an index lies outside the 12 by 16 table
(undefined in C). -/
def mazeAt (x y : Int) : Option Int :=
  if 0 ≤ y ∧ y < 12 ∧ 0 ≤ x ∧ x < 16 then some ((maze.getD y.toNat []).getD x.toNat 0)
  else none

/-- The function `pass` of `main.c`: the character `p` (112) or `n` (110); `none` when
the access is outside the table or the function falls off its end without a `return`. -/
def pass (x y : Int) : Option Nat :=
  match mazeAt x y with
  | none => none
  | some v =>
    if v = 0 ∨ v = 2 ∨ v = 3 then some 112
    else if v = 1 then some 110
    else none

/-- A call `drawSquare(rowStart, columnStart, squareSize, color)`. -/
structure DrawCall where
  rowStart : Int
  columnStart : Int
  squareSize : Int
  color : Nat
  deriving DecidableEq

/-- The variables of the input-dispatch loop of `main`: the globals `playerX` and
`playerY`, the local `currentState`, and the calls of `drawSquare` made so far. -/
structure GameState where
  playerX : Int
  playerY : Int
  currentState : Nat
  draws : List DrawCall
  deriving DecidableEq

/-- The state with one more call of `drawSquare` on its log. -/
def logDraw (d : DrawCall) (g : GameState) : GameState :=
  { playerX := g.playerX, playerY := g.playerY, currentState := g.currentState,
    draws := g.draws ++ [d] }

/-- The function `refreshSquare` of `main.c`. -/
def refreshSquare (x y : Int) (g : GameState) : Option GameState :=
  match mazeAt x y with
  | none => none
  | some v =>
    if v = 0 ∨ v = 2 ∨ v = 3 then
      some (logDraw { rowStart := y * 64, columnStart := x * 64, squareSize := 64,
                      color := WHITE } g)
    else if v = 1 then
      some (logDraw { rowStart := y * 64, columnStart := x * 64, squareSize := 64,
                      color := BLACK } g)
    else some g

/-- The function `defaultState` of `main.c`. -/
def defaultState (g : GameState) : GameState :=
  { playerX := 0, playerY := 2, currentState := g.currentState, draws := g.draws }

/-- The function `drawPlayer` of `main.c`. -/
def drawPlayer (color : Nat) (g : GameState) : GameState :=
  logDraw { rowStart := g.playerY * 64, columnStart := g.playerX * 64, squareSize := 64,
            color := color } g

/-- The body shared by the four movement branches of `main`:
`refreshSquare(playerX, playerY);` then the assignment that takes the player to
`(x, y)`, then `drawPlayer(RED);`. -/
def movePlayer (x y : Int) (g : GameState) : Option GameState :=
  match refreshSquare g.playerX g.playerY g with
  | none => none
  | some g1 =>
    some (drawPlayer RED
      { playerX := x, playerY := y, currentState := g1.currentState, draws := g1.draws })

/-- The branch for START of `main` (lines 171-175). -/
def onStart (data : Nat) (g : GameState) : Option GameState :=
  if data &&& BUTTON_START = BUTTON_START then
    let g1 := defaultState g
    match refreshSquare g1.playerX g1.playerY g1 with
    | none => none
    | some g2 => some (drawPlayer RED g2)
  else some g

/-- The branch for LEFT of `main` (lines 176-182). -/
def onLeft (data : Nat) (g : GameState) : Option GameState :=
  if data &&& BUTTON_LEFT = BUTTON_LEFT then
    if g.playerX > 0 then
      match pass g.playerX g.playerY with
      | none => none
      | some c => if c = 112 then movePlayer (g.playerX - 1) g.playerY g else some g
    else some g
  else some g

/-- The branch for RIGHT of `main` (lines 183-189). -/
def onRight (data : Nat) (g : GameState) : Option GameState :=
  if data &&& BUTTON_RIGHT = BUTTON_RIGHT then
    if g.playerX < 15 then
      match pass g.playerX g.playerY with
      | none => none
      | some c => if c = 112 then movePlayer (g.playerX + 1) g.playerY g else some g
    else some g
  else some g

/-- The branch for UP of `main` (lines 191-197).  The second operand of its guard reads
`1pass(playerX, playerY) == 'p'` in the source, which is not a C expression (the intended
call is `pass`); its value at the player position is the parameter `upTest`. -/
def onUp (upTest : Int → Int → Bool) (data : Nat) (g : GameState) : Option GameState :=
  if data &&& BUTTON_UP = BUTTON_UP then
    if g.playerY > 0 then
      if upTest g.playerX g.playerY then movePlayer g.playerX (g.playerY - 1) g else some g
    else some g
  else some g

/-- The branch for DOWN of `main` (lines 198-204). -/
def onDown (data : Nat) (g : GameState) : Option GameState :=
  if data &&& BUTTON_DOWN = BUTTON_DOWN then
    if g.playerY < 11 then
      match pass g.playerX g.playerY with
      | none => none
      | some c => if c = 112 then movePlayer g.playerX (g.playerY + 1) g else some g
    else some g
  else some g

/-- The test `if (maze[playerY][playerX] == 3)` at the end of the loop body of `main`
(lines 209-212). -/
def onExit (g : GameState) : Option GameState :=
  match mazeAt g.playerX g.playerY with
  | none => none
  | some v =>
    if v = 3 then
      match refreshSquare g.playerX g.playerY g with
      | none => none
      | some g1 => some (drawPlayer GREEN g1)
    else some g

/-- One round of the `while (1)` loop of `main`, for the snapshot `data` that
`get_SNES` returned: what it does to the player position, to `currentState` and on the
screen.  The closing `microsecond_delay(16667)` touches none of these. -/
def mainLoopBody (upTest : Int → Int → Bool) (data : Nat) (g : GameState) :
    Option GameState :=
  match
    (if data ≠ g.currentState then
      (onStart data g).bind fun g1 =>
      (onLeft data g1).bind fun g2 =>
      (onRight data g2).bind fun g3 =>
      (onUp upTest data g3).bind fun g4 =>
      (onDown data g4).bind fun g5 =>
      some { playerX := g5.playerX, playerY := g5.playerY, currentState := data,
             draws := g5.draws }
    else some g) with
  | none => none
  | some g6 => onExit g6

/-- The loop of `main` run on a sequence of controller snapshots. -/
def runMain (upTest : Int → Int → Bool) : List Nat → GameState → Option GameState
  | [], g => some g
  | data :: rest, g =>
    match mainLoopBody upTest data g with
    | none => none
    | some g' => runMain upTest rest g'

/-- The variables when `main` enters its loop: the globals `playerX` and `playerY` are
zero-initialised and `currentState` is `0xFFFF`. -/
def initialGame : GameState :=
  { playerX := 0, playerY := 0, currentState := 0xFFFF, draws := [] }

/-- The reading `pass(playerX, playerY) == 'p'` of the guard of the UP branch. -/
def passTest (x y : Int) : Bool := decide (pass x y = some 112)

/-- The player is on the 12 by 16 board. -/
def onBoard (g : GameState) : Prop :=
  0 ≤ g.playerX ∧ g.playerX ≤ 15 ∧ 0 ≤ g.playerY ∧ g.playerY ≤ 11

/-- A drawn square lies inside the 768 by 1024 pixels of the board. -/
def DrawCall.inBoard (d : DrawCall) : Prop :=
  0 ≤ d.rowStart ∧ d.rowStart + d.squareSize ≤ 12 * 64
  ∧ 0 ≤ d.columnStart ∧ d.columnStart + d.squareSize ≤ 16 * 64

/-- The invariant of the loop of `main`: the player is on the board and every square
drawn so far lies inside it. -/
def GameInv (g : GameState) : Prop :=
  onBoard g ∧ ∀ d ∈ g.draws, d.inBoard

/-! ## Reading the UART claims -/

/-- The string a `char *` points to: the bytes before the first zero byte. -/
def cString (mem : List Nat) : List Nat := mem.takeWhile (fun c => decide (c ≠ 0))

/-- A byte string with every line feed replaced by carriage return, line feed. -/
def expandLF (l : List Nat) : List Nat :=
  l.flatMap (fun c => if c = 0x0A then [0x0D, 0x0A] else [c])

/-- The ASCII character of a hexadecimal digit, upper case. -/
def asciiHex (d : Nat) : Nat := (cstr "0123456789ABCDEF").getD d 0

/-- The value of an ASCII hexadecimal digit (`0`-`9`, `A`-`F`), if it is one. -/
def hexValue (c : Nat) : Option Nat :=
  if 0x30 ≤ c ∧ c ≤ 0x39 then some (c - 0x30)
  else if 0x41 ≤ c ∧ c ≤ 0x46 then some (c - 0x41 + 10)
  else none

/-- Reading a base-16 numeral, most significant digit first, onto the value `acc` of the
digits read so far. -/
def parseHexFrom (acc : Nat) : List Nat → Option Nat
  | [] => some acc
  | c :: cs =>
    match hexValue c with
    | none => none
    | some d => parseHexFrom (16 * acc + d) cs

/-- Reading a base-16 numeral. -/
def parseHex (cs : List Nat) : Option Nat := parseHexFrom 0 cs

/-! ## Concrete inputs -/

/-- A video core that answers every request with the error code `0x80000001` (bit 31
set, bit 0 set) in word 1 and leaves the other words as they were. -/
def errorReply : VideoCore := fun _ req i => if i = 1 then 0x80000001 else req i

/-- A video core that answers every request with the success code `0x80000000` in
word 1 and leaves the other words as they were. -/
def okReply : VideoCore := fun _ req i => if i = 1 then 0x80000000 else req i

/-- A mailbox that is ready at once: mailbox 1 not full, mailbox 0 not empty, and the
first value of mailbox 0 is `addr`.  The buffer is all zero. -/
def idleMailbox (addr : Nat) : MboxState :=
  { mailbox_buffer := fun _ => 0, status1 := [0], status0 := [0], read0 := [addr], trace := [] }

/-- A video core that grants a request as firmware would, but with a smaller display
than asked for: success code in word 1, 800 by 600 pixels, the pixel buffer at bus
address `0xFE402000` with 1920000 bytes, 3200 bytes per row. -/
def firmwareReply : VideoCore := fun _ req i =>
  if i = 1 then 0x80000000
  else if i = 5 then 800
  else if i = 6 then 600
  else if i = 28 then 0xFE402000
  else if i = 29 then 1920000
  else if i = 33 then 3200
  else req i

/-- A start state for `initFrameBuffer`: the descriptor variables hold `d`, the mailbox
is ready at once and answers with `0x1008`, and the UART transmitter is always ready. -/
def demoState (d : Nat) : FbState :=
  { frameBuffer := d, frameBufferWidth := d, frameBufferHeight := d, frameBufferPitch := d,
    frameBufferDepth := d, frameBufferPixelOrder := d, frameBufferSize := d,
    mbox := idleMailbox 0x1008,
    uart := { lsr := List.replicate 300 0x20, out := [] } }

/-- The mailbox state after the query of `initFrameBuffer` from `demoState`, served by
the video core `vc`. -/
def demoAnswered (vc : VideoCore) : MboxState :=
  { mailbox_buffer := vc 0x1008 (storeWords (fun _ => 0) initRequestWrites),
    status1 := [], status0 := [], read0 := [],
    trace := [MboxEvent.readStatus1 0, MboxEvent.write1 0x1008, MboxEvent.readStatus0 0,
      MboxEvent.read0 0x1008, MboxEvent.readBuffer1 (vc 0x1008
        (storeWords (fun _ => 0) initRequestWrites) 1)] }

/-- A timer whose high word stays 0 and whose low word reads 100, 105, 112, 130. -/
def demoTimer : TimerState :=
  { chi := [0, 0, 0, 0, 0, 0, 0, 0], clo := [100, 105, 112, 130] }

/-- The timer of an emulator without a system timer: every register reads 0. -/
def deadTimer : TimerState :=
  { chi := [0, 0, 0, 0], clo := [0, 0] }

/-- A timer whose high word reads 1, then 2 (the low word has rolled over in between). -/
def rolloverTimer : TimerState :=
  { chi := [1, 2, 2, 2, 2], clo := [0xFFFFFFFF, 5, 9] }

/-- A GPIO block with the function select registers all ones, no controller attached (the
DATA line reads low at every sample) and a timer that reads 0 throughout. -/
def unpluggedPad : GpioState :=
  { gpfsel0 := 0xFFFFFFFF, gpfsel1 := 0xFFFFFFFF, gppud := 2, gppudclk0 := 0,
    gplev0 := List.replicate 16 0,
    timer := { chi := List.replicate 66 0, clo := List.replicate 33 0 },
    trace := [] }

/-- The `GPLEV0` readings of a controller with only button `i` pressed: bit 10 is low in
the `i`-th reading and high in the others. -/
def onePressed (i : Nat) : List Nat :=
  (List.range 16).map (fun j => if j = i then 0 else 0x400)

/-- A GPIO block like `unpluggedPad` whose `GPLEV0` returns the readings `rs`. -/
def padWith (rs : List Nat) : GpioState :=
  { gpfsel0 := 0, gpfsel1 := 0, gppud := 0, gppudclk0 := 0,
    gplev0 := rs,
    timer := { chi := List.replicate 66 0, clo := List.replicate 33 0 },
    trace := [] }

/-- The contents of the four GPIO configuration registers. -/
def regsOf (s : GpioState) : Nat × Nat × Nat × Nat :=
  (s.gpfsel0, s.gpfsel1, s.gppud, s.gppudclk0)

/-- A GPIO block as it may be before the pins are configured: every pin of the two
function select registers on alternate function 3 (field `111`). -/
def busyPad : GpioState :=
  { gpfsel0 := 0x3FFFFFFF, gpfsel1 := 0x3FFFFFFF, gppud := 2, gppudclk0 := 0x200,
    gplev0 := [], timer := { chi := [], clo := [] }, trace := [] }

/-- A UART whose transmitter is ready at each of the next `n` status reads. -/
def readyUart (n : Nat) : UartState :=
  { lsr := List.replicate n 0x20, out := [] }

/-- A frame buffer 4 pixels wide with every pixel 0. -/
def blankFrame : FrameBuf := { frameBufferWidth := 4, pixel := fun _ => 0 }

/-! # Proofs -/

/-! ### Lemmas on the mailbox loops -/

theorem writesOf_append (a b : List MboxEvent) : writesOf (a ++ b) = writesOf a ++ writesOf b := by
  induction a with
  | nil => rfl
  | cons e a ih => cases e <;> simp [writesOf, ih]

theorem outboundOf_append (a b : List MboxEvent) :
    outboundOf (a ++ b) = outboundOf a ++ outboundOf b := by
  induction a with
  | nil => rfl
  | cons e a ih => cases e <;> simp [outboundOf, ih]

theorem writesOf_readStatus1 (l : List Nat) : writesOf (l.map MboxEvent.readStatus1) = [] := by
  induction l with
  | nil => rfl
  | cons v l ih => simpa [writesOf] using ih

theorem outboundOf_readStatus1 (l : List Nat) :
    outboundOf (l.map MboxEvent.readStatus1) = [] := by
  induction l with
  | nil => rfl
  | cons v l ih => simpa [outboundOf] using ih

theorem pollFull_spec (pre : List Nat) (v : Nat) (rest : List Nat)
    (hpre : ∀ x ∈ pre, x &&& MAILBOX_FULL ≠ 0) (hv : v &&& MAILBOX_FULL = 0) :
    pollFull (pre ++ v :: rest)
      = some (pre.map MboxEvent.readStatus1 ++ [MboxEvent.readStatus1 v], rest) := by
  induction pre with
  | nil => simp [pollFull, hv]
  | cons x pre ih =>
    have hx : x &&& MAILBOX_FULL ≠ 0 := hpre x (List.mem_cons_self _ _)
    have ih' := ih (fun y hy => hpre y (List.mem_cons_of_mem _ hy))
    simp [pollFull, hx, ih']

theorem pollEmpty_spec (st0 : List Nat) (h : 0 < notEmptyCount st0) :
    ∃ ev st0', pollEmpty st0 = some (ev, st0') ∧ notEmptyCount st0' + 1 = notEmptyCount st0
      ∧ writesOf ev = [] ∧ outboundOf ev = [] := by
  induction st0 with
  | nil => simp [notEmptyCount] at h
  | cons v rest ih =>
    by_cases hv : v &&& MAILBOX_EMPTY = 0
    · refine ⟨[MboxEvent.readStatus0 v], rest, ?_, ?_, rfl, rfl⟩
      · simp [pollEmpty, hv]
      · simp [notEmptyCount, hv]
    · have hc : notEmptyCount (v :: rest) = notEmptyCount rest := by
        simp [notEmptyCount, hv]
      obtain ⟨ev, st0', h1, h2, h3, h4⟩ := ih (hc ▸ h)
      refine ⟨MboxEvent.readStatus0 v :: ev, st0', ?_, ?_, ?_, ?_⟩
      · simp [pollEmpty, hv, h1]
      · rw [hc]; exact h2
      · simpa [writesOf] using h3
      · simpa [outboundOf] using h4

theorem awaitResponse_spec (address buf1 : Nat) (before after : List Nat)
    (hb : address ∉ before) :
    ∀ st0, before.length < notEmptyCount st0 →
      ∃ ev st0', awaitResponse address buf1 st0 (before ++ address :: after)
          = some ((if buf1 = MAILBOX_RESPONSE then 1 else 0), ev, st0', after)
        ∧ writesOf ev = [] ∧ outboundOf ev = before ++ [address]
        ∧ ev.getLast? = some (MboxEvent.readBuffer1 buf1) := by
  induction before with
  | nil =>
    intro st0 h
    obtain ⟨ev, st0', h1, _, h3, h4⟩ := pollEmpty_spec st0 (by omega)
    refine ⟨ev ++ [MboxEvent.read0 address, MboxEvent.readBuffer1 buf1], st0', ?_, ?_, ?_, ?_⟩
    · simp [awaitResponse, h1]
    · simp [writesOf_append, h3, writesOf]
    · simp [outboundOf_append, h4, outboundOf]
    · simp [List.getLast?_append]
  | cons x before ih =>
    intro st0 h
    have hx : x ≠ address := fun e => hb (e ▸ List.mem_cons_self _ _)
    have hb' : address ∉ before := fun e => hb (List.mem_cons_of_mem _ e)
    obtain ⟨ev, st0', h1, h2, h3, h4⟩ := pollEmpty_spec st0 (by omega)
    obtain ⟨ev', st0'', k1, k2, k3, k4⟩ := ih hb' st0' (by simp at h; omega)
    refine ⟨ev ++ MboxEvent.read0 x :: ev', st0'', ?_, ?_, ?_, ?_⟩
    · simp [awaitResponse, h1, hx, k1]
    · simp [writesOf_append, h3, writesOf, k2]
    · simp [outboundOf_append, h4, outboundOf, k3]
    · cases ev' with
      | nil => simp at k4
      | cons e t =>
        rw [List.getLast?_append, List.getLast?_cons_cons, k4]
        rfl

theorem pollFull_writes : ∀ (l : List Nat) (ev : List MboxEvent) (r : List Nat),
    pollFull l = some (ev, r) → writesOf ev = [] := by
  intro l
  induction l with
  | nil => intro ev r h; simp [pollFull] at h
  | cons v rest ih =>
    intro ev r h
    unfold pollFull at h
    split at h
    · cases hp : pollFull rest with
      | none => simp [hp] at h
      | some p =>
        obtain ⟨ev', r'⟩ := p
        simp only [hp, Option.some.injEq, Prod.mk.injEq] at h
        rw [← h.1]
        simpa [writesOf] using ih ev' r' hp
    · simp only [Option.some.injEq, Prod.mk.injEq] at h
      rw [← h.1]; rfl

theorem pollEmpty_writes : ∀ (l : List Nat) (ev : List MboxEvent) (r : List Nat),
    pollEmpty l = some (ev, r) → writesOf ev = [] := by
  intro l
  induction l with
  | nil => intro ev r h; simp [pollEmpty] at h
  | cons v rest ih =>
    intro ev r h
    unfold pollEmpty at h
    split at h
    · cases hp : pollEmpty rest with
      | none => simp [hp] at h
      | some p =>
        obtain ⟨ev', r'⟩ := p
        simp only [hp, Option.some.injEq, Prod.mk.injEq] at h
        rw [← h.1]
        simpa [writesOf] using ih ev' r' hp
    · simp only [Option.some.injEq, Prod.mk.injEq] at h
      rw [← h.1]; rfl

theorem awaitResponse_writes (address buf1 : Nat) :
    ∀ (rd st0 : List Nat) (res : Nat) (ev : List MboxEvent) (a b : List Nat),
      awaitResponse address buf1 st0 rd = some (res, ev, a, b) → writesOf ev = [] := by
  intro rd
  induction rd with
  | nil => intro st0 res ev a b h; simp [awaitResponse] at h
  | cons r rs ih =>
    intro st0 res ev a b h
    unfold awaitResponse at h
    cases hp : pollEmpty st0 with
    | none => simp [hp] at h
    | some p =>
      obtain ⟨ev0, st0'⟩ := p
      have hw := pollEmpty_writes st0 ev0 st0' hp
      simp only [hp] at h
      split at h
      · simp only [Option.some.injEq, Prod.mk.injEq] at h
        rw [← h.2.1]
        simp [writesOf_append, hw, writesOf]
      · cases hq : awaitResponse address buf1 st0' rs with
        | none => simp [hq] at h
        | some q =>
          obtain ⟨res', ev', a', b'⟩ := q
          simp only [hq, Option.some.injEq, Prod.mk.injEq] at h
          rw [← h.2.1]
          simp [writesOf_append, hw, writesOf, ih st0' res' ev' a' b' hq]

/-- Whenever `mailbox_query` returns, it has written exactly one word to
`MAILBOX1_WRITE`, the encoded address. -/
theorem mailbox_query_writes (bufAddr channel : Nat) (vc : VideoCore) (s : MboxState)
    (res : Nat) (s' : MboxState) (h : mailbox_query bufAddr channel vc s = some (res, s')) :
    writesOf s'.trace = writesOf s.trace ++ [mailboxAddress bufAddr channel] := by
  unfold mailbox_query at h
  cases hp : pollFull s.status1 with
  | none => simp [hp] at h
  | some p =>
    obtain ⟨ev1, st1⟩ := p
    simp only [hp] at h
    cases hq : awaitResponse (mailboxAddress bufAddr channel)
        (vc (mailboxAddress bufAddr channel) s.mailbox_buffer 1) s.status0 s.read0 with
    | none => simp [hq] at h
    | some q =>
      obtain ⟨res', ev2, a, b⟩ := q
      simp only [hq, Option.some.injEq, Prod.mk.injEq] at h
      rw [← h.2]
      simp [writesOf_append, writesOf, pollFull_writes _ _ _ hp,
        awaitResponse_writes _ _ _ _ _ _ _ _ hq]

/-- What `mailbox_query` does when the awaited readings arrive: mailbox 1 shows not-full
after the readings `pre`, and the sent address is the first matching value of mailbox 0,
after the values `before`, each of which needs a not-empty status reading. -/
theorem mailbox_query_spec (bufAddr channel : Nat) (vc : VideoCore) (s : MboxState)
    (pre : List Nat) (v : Nat) (rest before after : List Nat)
    (hs1 : s.status1 = pre ++ v :: rest)
    (hpre : ∀ x ∈ pre, x &&& MAILBOX_FULL ≠ 0) (hv : v &&& MAILBOX_FULL = 0)
    (hr : s.read0 = before ++ mailboxAddress bufAddr channel :: after)
    (hb : mailboxAddress bufAddr channel ∉ before)
    (hn : before.length < notEmptyCount s.status0) :
    ∃ post s',
      mailbox_query bufAddr channel vc s
        = some ((if vc (mailboxAddress bufAddr channel) s.mailbox_buffer 1 = MAILBOX_RESPONSE
            then 1 else 0), s')
      ∧ s'.mailbox_buffer = vc (mailboxAddress bufAddr channel) s.mailbox_buffer
      ∧ s'.status1 = rest ∧ s'.read0 = after
      ∧ s'.trace = s.trace ++ (pre.map MboxEvent.readStatus1 ++ [MboxEvent.readStatus1 v])
          ++ MboxEvent.write1 (mailboxAddress bufAddr channel) :: post
      ∧ writesOf post = [] ∧ outboundOf post = before ++ [mailboxAddress bufAddr channel]
      ∧ post.getLast? = some (MboxEvent.readBuffer1
          (vc (mailboxAddress bufAddr channel) s.mailbox_buffer 1)) := by
  obtain ⟨ev, st0', h1, h2, h3, h4⟩ :=
    awaitResponse_spec (mailboxAddress bufAddr channel)
      (vc (mailboxAddress bufAddr channel) s.mailbox_buffer 1) before after hb s.status0 hn
  refine ⟨ev,
    { mailbox_buffer := vc (mailboxAddress bufAddr channel) s.mailbox_buffer,
      status1 := rest, status0 := st0', read0 := after,
      trace := s.trace ++ (pre.map MboxEvent.readStatus1 ++ [MboxEvent.readStatus1 v])
          ++ MboxEvent.write1 (mailboxAddress bufAddr channel) :: ev },
    ?_, rfl, rfl, rfl, rfl, h2, h3, h4⟩
  unfold mailbox_query
  simp only [hs1, pollFull_spec pre v rest hpre hv, hr, h1]

/-! ### Bit arithmetic for the channel encoding -/

theorem testBit_FFFFFFF0 (i : Nat) : Nat.testBit 0xFFFFFFF0 i = decide (4 ≤ i ∧ i < 32) := by
  by_cases h : i < 32
  · have key : ∀ j < 32, Nat.testBit 0xFFFFFFF0 j = decide (4 ≤ j ∧ j < 32) := by decide
    exact key i h
  · have h1 : (0xFFFFFFF0 : Nat) < 2 ^ i :=
      lt_of_lt_of_le (by norm_num) (Nat.pow_le_pow_right (by norm_num) (Nat.le_of_not_lt h))
    rw [Nat.testBit_lt_two_pow h1]
    simp [h]

theorem and_FFFFFFF0 (x : Nat) (hx : x < 2 ^ 32) : x &&& 0xFFFFFFF0 = 2 ^ 4 * (x / 2 ^ 4) := by
  apply Nat.eq_of_testBit_eq
  intro i
  rw [Nat.testBit_and, testBit_FFFFFFF0, Nat.testBit_mul_pow_two, ← Nat.shiftRight_eq_div_pow,
    Nat.testBit_shiftRight]
  by_cases h4 : 4 ≤ i
  · by_cases h32 : i < 32
    · have e : 4 + (i - 4) = i := by omega
      simp [h4, h32, e]
    · have hlt : x < 2 ^ i :=
        lt_of_lt_of_le hx (Nat.pow_le_pow_right (by norm_num) (Nat.le_of_not_lt h32))
      have e : 4 + (i - 4) = i := by omega
      simp [h32, e, Nat.testBit_lt_two_pow hlt]
  · simp [h4]

/-- On a 16-byte aligned 32-bit address and a 4-bit channel the encoding is a sum. -/
theorem mailboxAddress_aligned (a c : Nat) (ha : a < 2 ^ 32) (hal : a % 16 = 0) (hc : c < 16) :
    mailboxAddress a c = a + c := by
  unfold mailboxAddress
  have h1 : a % 2 ^ 32 = a := Nat.mod_eq_of_lt ha
  have h2 : a &&& 0xFFFFFFF0 = 2 ^ 4 * (a / 2 ^ 4) := and_FFFFFFF0 a ha
  have h3 : c &&& 0xF = c := by
    have := Nat.and_pow_two_sub_one_eq_mod c 4
    norm_num at this
    rw [this]; exact Nat.mod_eq_of_lt hc
  rw [h1, h2, h3, ← Nat.mul_add_lt_is_or (by norm_num; exact hc)]
  have : 2 ^ 4 * (a / 2 ^ 4) = a := by norm_num; omega
  rw [this]

/-! ### Claims on `mailbox_query` -/

/-- C1, as stated, fails: with the buffer at `0x1000`, channel 8 and a video core that
answers with response code `0x80000001`, the matching response `0x1008` is read, bit 31
of `mailbox_buffer[1]` is set, and `mailbox_query` returns 0. -/
theorem mailbox_query_high_bit_counterexample :
    (mailbox_query 0x1000 8 errorReply (idleMailbox 0x1008)).map
        (fun p => (p.1, p.2.mailbox_buffer 1, p.2.trace))
      = some (0, 0x80000001,
          [MboxEvent.readStatus1 0, MboxEvent.write1 0x1008, MboxEvent.readStatus0 0,
            MboxEvent.read0 0x1008, MboxEvent.readBuffer1 0x80000001])
    ∧ Nat.testBit 0x80000001 31 = true
    ∧ ¬ ((0 : Nat) ≠ 0 ↔ Nat.testBit 0x80000001 31 = true) := by
  refine ⟨by decide, by decide, by decide⟩

/-- C1, amended: for every channel and every stream of register readings in which
mailbox 1 shows not-full and a response equal to the sent address arrives in mailbox 0,
`mailbox_query` returns, its result is non-zero if and only if the response-code word
`mailbox_buffer[1]` is exactly `0x80000000` when the matching response has been read,
and that read of `mailbox_buffer[1]` is the last access it makes. -/
theorem mailbox_query_result (bufAddr channel : Nat) (vc : VideoCore) (s : MboxState)
    (pre : List Nat) (v : Nat) (rest before after : List Nat)
    (hs1 : s.status1 = pre ++ v :: rest)
    (hpre : ∀ x ∈ pre, x &&& MAILBOX_FULL ≠ 0) (hv : v &&& MAILBOX_FULL = 0)
    (hr : s.read0 = before ++ mailboxAddress bufAddr channel :: after)
    (hb : mailboxAddress bufAddr channel ∉ before)
    (hn : before.length < notEmptyCount s.status0) :
    ∃ res s', mailbox_query bufAddr channel vc s = some (res, s')
      ∧ (res ≠ 0 ↔ s'.mailbox_buffer 1 = MAILBOX_RESPONSE)
      ∧ (res = 0 ∨ res = 1)
      ∧ s'.trace.getLast? = some (MboxEvent.readBuffer1 (s'.mailbox_buffer 1)) := by
  obtain ⟨post, s', h1, h2, _, _, h5, _, _, h8⟩ :=
    mailbox_query_spec bufAddr channel vc s pre v rest before after hs1 hpre hv hr hb hn
  refine ⟨_, s', h1, ?_, ?_, ?_⟩
  · rw [h2]; split <;> simp_all
  · split <;> simp
  · rw [h5, h2]
    cases post with
    | nil => simp at h8
    | cons e t =>
      rw [List.getLast?_append, List.getLast?_cons_cons, h8]
      rfl

/-- Witness of `mailbox_query_result`: buffer at `0x1000`, channel 8, a mailbox that is
ready at once and a video core that answers with the success code. -/
theorem mailbox_query_result_witness :
    ∃ res s', mailbox_query 0x1000 8 okReply (idleMailbox 0x1008) = some (res, s')
      ∧ (res ≠ 0 ↔ s'.mailbox_buffer 1 = MAILBOX_RESPONSE)
      ∧ (res = 0 ∨ res = 1)
      ∧ s'.trace.getLast? = some (MboxEvent.readBuffer1 (s'.mailbox_buffer 1)) :=
  mailbox_query_result 0x1000 8 okReply (idleMailbox 0x1008) [] 0 [] [] []
    rfl (by simp) (by decide) rfl (by simp) (by decide)

/-- C2: when the inbound status eventually shows not-full (after the full readings
`pre`) and the outbound values contain the sent address (first after the values
`before`, each made available by a not-empty status reading), `mailbox_query` returns;
its accesses are the status polls, of which only the last has the full bit clear, then
the single write of the address to the inbound FIFO, then accesses `post` that contain
no write and whose outbound reads are exactly `before` followed by the address; the
values after the match stay unread. -/
theorem mailbox_query_protocol (bufAddr channel : Nat) (vc : VideoCore) (s : MboxState)
    (pre : List Nat) (v : Nat) (rest before after : List Nat)
    (hs1 : s.status1 = pre ++ v :: rest)
    (hpre : ∀ x ∈ pre, x &&& MAILBOX_FULL ≠ 0) (hv : v &&& MAILBOX_FULL = 0)
    (hr : s.read0 = before ++ mailboxAddress bufAddr channel :: after)
    (hb : mailboxAddress bufAddr channel ∉ before)
    (hn : before.length < notEmptyCount s.status0) :
    ∃ res s' post, mailbox_query bufAddr channel vc s = some (res, s')
      ∧ s'.trace = s.trace ++ pre.map MboxEvent.readStatus1
          ++ [MboxEvent.readStatus1 v, MboxEvent.write1 (mailboxAddress bufAddr channel)]
          ++ post
      ∧ writesOf s'.trace = writesOf s.trace ++ [mailboxAddress bufAddr channel]
      ∧ writesOf post = []
      ∧ outboundOf (pre.map MboxEvent.readStatus1 ++ [MboxEvent.readStatus1 v]) = []
      ∧ outboundOf post = before ++ [mailboxAddress bufAddr channel]
      ∧ (∀ x ∈ before, x ≠ mailboxAddress bufAddr channel)
      ∧ s'.read0 = after := by
  obtain ⟨post, s', h1, _, _, h4, h5, h6, h7, _⟩ :=
    mailbox_query_spec bufAddr channel vc s pre v rest before after hs1 hpre hv hr hb hn
  refine ⟨_, s', post, h1, ?_, mailbox_query_writes _ _ _ _ _ _ h1, h6, ?_, h7, ?_, h4⟩
  · rw [h5]; simp
  · simp [outboundOf_append, outboundOf_readStatus1, outboundOf]
  · intro x hx e
    exact hb (e ▸ hx)

/-- Witness of `mailbox_query_protocol`: mailbox 1 is full once, mailbox 0 is empty once
and first holds a stale value `0x2008` before the answer `0x1008`. -/
theorem mailbox_query_protocol_witness :
    ∃ res s' post,
      mailbox_query 0x1000 8 okReply
          { mailbox_buffer := fun _ => 0, status1 := [0x80000000, 0],
            status0 := [0x40000000, 0, 0], read0 := [0x2008, 0x1008, 7], trace := [] }
        = some (res, s')
      ∧ s'.trace = [] ++ [0x80000000].map MboxEvent.readStatus1
          ++ [MboxEvent.readStatus1 0, MboxEvent.write1 (mailboxAddress 0x1000 8)]
          ++ post
      ∧ writesOf s'.trace = writesOf [] ++ [mailboxAddress 0x1000 8]
      ∧ writesOf post = []
      ∧ outboundOf ([0x80000000].map MboxEvent.readStatus1 ++ [MboxEvent.readStatus1 0]) = []
      ∧ outboundOf post = [0x2008] ++ [mailboxAddress 0x1000 8]
      ∧ (∀ x ∈ [0x2008], x ≠ mailboxAddress 0x1000 8)
      ∧ s'.read0 = [7] :=
  mailbox_query_protocol 0x1000 8 okReply
    { mailbox_buffer := fun _ => 0, status1 := [0x80000000, 0],
      status0 := [0x40000000, 0, 0], read0 := [0x2008, 0x1008, 7], trace := [] }
    [0x80000000] 0 [] [0x2008] [7]
    rfl (by decide) (by decide) rfl (by decide) (by decide)

/-- C3: for a 32-bit buffer address `a` and an 8-bit channel `c` the word that
`mailbox_query` writes to mailbox 1 is `(a & 0xFFFFFFF0) | (c & 0xF)`; when `a` is
16-byte aligned and `c < 16` the low 4 bits of the word are `c`, the word with its low 4
bits cleared is `a`, and two such pairs with the same word are equal. -/
theorem mailboxAddress_roundtrip (a c : Nat) (ha : a < 2 ^ 32) (hc : c < 256) :
    mailboxAddress a c = (a &&& 0xFFFFFFF0) ||| (c &&& 0xF)
    ∧ (∀ (vc : VideoCore) (s : MboxState) (res : Nat) (s' : MboxState),
        mailbox_query a c vc s = some (res, s') →
        writesOf s'.trace = writesOf s.trace ++ [(a &&& 0xFFFFFFF0) ||| (c &&& 0xF)])
    ∧ (a % 16 = 0 → c < 16 →
        mailboxAddress a c &&& 0xF = c
        ∧ mailboxAddress a c &&& 0xFFFFFFF0 = a
        ∧ ∀ a' c', a' < 2 ^ 32 → a' % 16 = 0 → c' < 16 →
            mailboxAddress a' c' = mailboxAddress a c → a' = a ∧ c' = c) := by
  have h0 : mailboxAddress a c = (a &&& 0xFFFFFFF0) ||| (c &&& 0xF) := by
    unfold mailboxAddress
    rw [Nat.mod_eq_of_lt ha]
  refine ⟨h0, ?_, ?_⟩
  · intro vc s res s' h
    rw [← h0]
    exact mailbox_query_writes a c vc s res s' h
  · intro hal hc4
    have hsum := mailboxAddress_aligned a c ha hal hc4
    have hlt : a + c < 2 ^ 32 := by
      have : a + 16 ≤ 2 ^ 32 := by norm_num at ha ⊢; omega
      omega
    refine ⟨?_, ?_, ?_⟩
    · rw [hsum]
      have := Nat.and_pow_two_sub_one_eq_mod (a + c) 4
      norm_num at this
      rw [this]; omega
    · rw [hsum, and_FFFFFFF0 (a + c) hlt]
      norm_num; omega
    · intro a' c' ha' hal' hc' e
      rw [hsum, mailboxAddress_aligned a' c' ha' hal' hc'] at e
      omega

/-- Witness of `mailboxAddress_roundtrip`: the buffer at `0x1000` and channel 8. -/
theorem mailboxAddress_roundtrip_witness :
    mailboxAddress 0x1000 8 = (0x1000 &&& 0xFFFFFFF0) ||| (8 &&& 0xF)
    ∧ mailboxAddress 0x1000 8 &&& 0xF = 8
    ∧ mailboxAddress 0x1000 8 &&& 0xFFFFFFF0 = 0x1000
    ∧ ∀ a' c', a' < 2 ^ 32 → a' % 16 = 0 → c' < 16 →
        mailboxAddress a' c' = mailboxAddress 0x1000 8 → a' = 0x1000 ∧ c' = 8 :=
  ⟨(mailboxAddress_roundtrip 0x1000 8 (by norm_num) (by norm_num)).1,
    (mailboxAddress_roundtrip 0x1000 8 (by norm_num) (by norm_num)).2.2
      (by norm_num) (by norm_num)⟩

/-! ### Lemmas on the UART functions -/

theorem waitTransmitter_spec (lsr : List Nat) (h : 0 < txReady lsr) :
    ∃ rest, waitTransmitter lsr = some rest ∧ txReady rest + 1 = txReady lsr := by
  induction lsr with
  | nil => simp [txReady] at h
  | cons v rest ih =>
    by_cases hv : v &&& 0x20 = 0
    · have hc : txReady (v :: rest) = txReady rest := by simp [txReady, hv]
      obtain ⟨r, h1, h2⟩ := ih (hc ▸ h)
      exact ⟨r, by simp [waitTransmitter, hv, h1], by rw [hc]; exact h2⟩
    · exact ⟨rest, by simp [waitTransmitter, hv], by simp [txReady, hv]⟩

theorem uart_putc_spec (c : Nat) (u : UartState) (h : 0 < txReady u.lsr) :
    ∃ u', uart_putc c u = some u' ∧ u'.out = u.out ++ [c]
      ∧ txReady u'.lsr + 1 = txReady u.lsr := by
  obtain ⟨rest, h1, h2⟩ := waitTransmitter_spec u.lsr h
  exact ⟨{ lsr := rest, out := u.out ++ [c] }, by simp [uart_putc, h1], rfl, h2⟩

theorem uart_puts_spec : ∀ (s : List Nat) (u : UartState), (crlf s).length ≤ txReady u.lsr →
    ∃ u', uart_puts s u = some u' ∧ u'.out = u.out ++ crlf s
      ∧ txReady u'.lsr + (crlf s).length = txReady u.lsr := by
  intro s
  induction s with
  | nil => intro u _; exact ⟨u, rfl, by simp [crlf], by simp [crlf]⟩
  | cons c cs ih =>
    intro u h
    by_cases h0 : c = 0
    · exact ⟨u, by simp [uart_puts, h0], by simp [crlf, h0], by simp [crlf, h0]⟩
    · by_cases hn : c = 0x0A
      · have hl : crlf (c :: cs) = 0x0D :: 0x0A :: crlf cs := by simp [crlf, hn]
        rw [hl] at h ⊢
        simp only [List.length_cons] at h ⊢
        obtain ⟨u1, a1, a2, a3⟩ := uart_putc_spec 0x0D u (by omega)
        obtain ⟨u2, b1, b2, b3⟩ := uart_putc_spec 0x0A u1 (by omega)
        obtain ⟨u3, c1, c2, c3⟩ := ih u2 (by omega)
        refine ⟨u3, ?_, ?_, by omega⟩
        · subst hn
          simp [uart_puts, a1, b1, c1]
        · rw [c2, b2, a2]; simp
      · have hl : crlf (c :: cs) = c :: crlf cs := by simp [crlf, h0, hn]
        rw [hl] at h ⊢
        simp only [List.length_cons] at h ⊢
        obtain ⟨u2, b1, b2, b3⟩ := uart_putc_spec c u (by omega)
        obtain ⟨u3, c1, c2, c3⟩ := ih u2 (by omega)
        refine ⟨u3, ?_, ?_, by omega⟩
        · simp [uart_puts, h0, hn, b1, c1]
        · rw [c2, b2]; simp

theorem uart_puthex_spec (value : Nat) (u : UartState) (h : 8 ≤ txReady u.lsr) :
    ∃ u', uart_puthex value u = some u' ∧ u'.out = u.out ++ hexDigits value
      ∧ txReady u'.lsr + 8 = txReady u.lsr := by
  obtain ⟨u1, a1, a2, a3⟩ := uart_putc_spec (hexDigit value 28) u (by omega)
  obtain ⟨u2, b1, b2, b3⟩ := uart_putc_spec (hexDigit value 24) u1 (by omega)
  obtain ⟨u3, c1, c2, c3⟩ := uart_putc_spec (hexDigit value 20) u2 (by omega)
  obtain ⟨u4, d1, d2, d3⟩ := uart_putc_spec (hexDigit value 16) u3 (by omega)
  obtain ⟨u5, e1, e2, e3⟩ := uart_putc_spec (hexDigit value 12) u4 (by omega)
  obtain ⟨u6, f1, f2, f3⟩ := uart_putc_spec (hexDigit value 8) u5 (by omega)
  obtain ⟨u7, g1, g2, g3⟩ := uart_putc_spec (hexDigit value 4) u6 (by omega)
  obtain ⟨u8, k1, k2, k3⟩ := uart_putc_spec (hexDigit value 0) u7 (by omega)
  refine ⟨u8, ?_, ?_, by omega⟩
  · simp [uart_puthex, uart_puthex_loop, a1, b1, c1, d1, e1, f1, g1, k1]
  · rw [k2, g2, f2, e2, d2, c2, b2, a2]; simp [hexDigits]

theorem txReady_replicate (n : Nat) : txReady (List.replicate n 0x20) = n := by
  induction n with
  | zero => rfl
  | succ n ih =>
    rw [List.replicate_succ]
    simp only [txReady] at ih ⊢
    rw [List.filter_cons_of_pos (by decide), List.length_cons, ih]

theorem demoState_txReady (d : Nat) : txReady (demoState d).uart.lsr = 300 :=
  txReady_replicate 300

theorem hexDigits_length (value : Nat) : (hexDigits value).length = 8 := rfl

theorem uartCalls_spec : ∀ (cs : List UartCall) (u : UartState),
    (callBytes cs).length ≤ txReady u.lsr →
    ∃ u', uartCalls cs u = some u' ∧ u'.out = u.out ++ callBytes cs
      ∧ txReady u'.lsr + (callBytes cs).length = txReady u.lsr := by
  intro cs
  induction cs with
  | nil => intro u _; exact ⟨u, rfl, by simp [callBytes], by simp [callBytes]⟩
  | cons c cs ih =>
    intro u h
    simp only [callBytes, List.length_append] at h ⊢
    cases c with
    | puts str =>
      simp only [UartCall.bytes] at h ⊢
      obtain ⟨u1, a1, a2, a3⟩ := uart_puts_spec str u (by omega)
      obtain ⟨u2, b1, b2, b3⟩ := ih u1 (by omega)
      refine ⟨u2, by simp [uartCalls, a1, b1], by rw [b2, a2]; simp, by omega⟩
    | puthex v =>
      simp only [UartCall.bytes, hexDigits_length] at h ⊢
      obtain ⟨u1, a1, a2, a3⟩ := uart_puthex_spec v u (by omega)
      obtain ⟨u2, b1, b2, b3⟩ := ih u1 (by omega)
      refine ⟨u2, by simp [uartCalls, a1, b1], by rw [b2, a2]; simp, by omega⟩

theorem settingsCalls_length (w h p d o a sz : Nat) :
    (callBytes (settingsCalls w h p d o a sz)).length = 291 := by
  simp only [settingsCalls, callBytes, UartCall.bytes, List.length_append, hexDigits_length,
    List.length_nil]
  rfl

theorem failureMessage_bytes :
    callBytes [UartCall.puts (cstr "Cannot initialize frame buffer\n")]
      = cstr "Cannot initialize frame buffer" ++ [0x0D, 0x0A] := by
  decide

/-! ### Lemmas on `initFrameBuffer` -/

theorem awaitResponse_result (address buf1 : Nat) :
    ∀ (rd st0 : List Nat) (res : Nat) (ev : List MboxEvent) (a b : List Nat),
      awaitResponse address buf1 st0 rd = some (res, ev, a, b) →
      res = if buf1 = MAILBOX_RESPONSE then 1 else 0 := by
  intro rd
  induction rd with
  | nil => intro st0 res ev a b h; simp [awaitResponse] at h
  | cons r rs ih =>
    intro st0 res ev a b h
    unfold awaitResponse at h
    cases hp : pollEmpty st0 with
    | none => simp [hp] at h
    | some p =>
      obtain ⟨ev0, st0'⟩ := p
      simp only [hp] at h
      split at h
      · simp only [Option.some.injEq, Prod.mk.injEq] at h
        exact h.1.symm
      · cases hq : awaitResponse address buf1 st0' rs with
        | none => simp [hq] at h
        | some q =>
          obtain ⟨res', ev', a', b'⟩ := q
          simp only [hq, Option.some.injEq, Prod.mk.injEq] at h
          rw [← h.1]
          exact ih st0' res' ev' a' b' hq

/-- The buffer `mailbox_query` leaves is the one the video core made of the request. -/
theorem mailbox_query_buffer (bufAddr channel : Nat) (vc : VideoCore) (s : MboxState)
    (res : Nat) (s' : MboxState) (h : mailbox_query bufAddr channel vc s = some (res, s')) :
    s'.mailbox_buffer = vc (mailboxAddress bufAddr channel) s.mailbox_buffer
    ∧ (res ≠ 0 ↔ s'.mailbox_buffer 1 = MAILBOX_RESPONSE) := by
  unfold mailbox_query at h
  cases hp : pollFull s.status1 with
  | none => simp [hp] at h
  | some p =>
    obtain ⟨ev1, st1⟩ := p
    simp only [hp] at h
    cases hq : awaitResponse (mailboxAddress bufAddr channel)
        (vc (mailboxAddress bufAddr channel) s.mailbox_buffer 1) s.status0 s.read0 with
    | none => simp [hq] at h
    | some q =>
      obtain ⟨res', ev2, a, b⟩ := q
      simp only [hq, Option.some.injEq, Prod.mk.injEq] at h
      have hres := awaitResponse_result _ _ _ _ _ _ _ _ hq
      rw [← h.2, ← h.1, hres]
      refine ⟨rfl, ?_⟩
      by_cases hb : vc (mailboxAddress bufAddr channel) s.mailbox_buffer 1 = MAILBOX_RESPONSE
      · simp [hb]
      · simp [hb]

theorem initFrameBuffer_success (bufAddr : Nat) (vc : VideoCore) (s : FbState)
    (r : Nat) (m : MboxState)
    (hq : mailbox_query bufAddr CHANNEL_PROPERTY_TAGS_ARMTOVC vc
      (setBuffer s.mbox (storeWords s.mbox.mailbox_buffer initRequestWrites)) = some (r, m))
    (hr : r ≠ 0) (hu : 291 ≤ txReady s.uart.lsr) :
    ∃ s', initFrameBuffer bufAddr vc s = some s'
      ∧ s'.frameBuffer = m.mailbox_buffer 28 &&& 0x3FFFFFFF
      ∧ s'.frameBufferWidth = m.mailbox_buffer 5
      ∧ s'.frameBufferHeight = m.mailbox_buffer 6
      ∧ s'.frameBufferPitch = m.mailbox_buffer 33
      ∧ s'.frameBufferDepth = m.mailbox_buffer 20
      ∧ s'.frameBufferPixelOrder = m.mailbox_buffer 24
      ∧ s'.frameBufferSize = m.mailbox_buffer 29 := by
  have key : ∀ w h p d o a z, uartCalls (settingsCalls w h p d o a z) s.uart ≠ none := by
    intro w h p d o a z e
    obtain ⟨u, h1, _⟩ := uartCalls_spec (settingsCalls w h p d o a z) s.uart
      (by rw [settingsCalls_length]; exact hu)
    rw [h1] at e
    cases e
  unfold initFrameBuffer
  simp only [hq, if_pos hr]
  split
  · rename_i hnone
    exact absurd hnone (key _ _ _ _ _ _ _)
  · exact ⟨_, rfl, rfl, rfl, rfl, rfl, rfl, rfl, rfl⟩

theorem initFrameBuffer_failure (bufAddr : Nat) (vc : VideoCore) (s : FbState)
    (m : MboxState)
    (hq : mailbox_query bufAddr CHANNEL_PROPERTY_TAGS_ARMTOVC vc
      (setBuffer s.mbox (storeWords s.mbox.mailbox_buffer initRequestWrites)) = some (0, m))
    (hu : 32 ≤ txReady s.uart.lsr) :
    ∃ u, initFrameBuffer bufAddr vc s
        = some { frameBuffer := s.frameBuffer
                 frameBufferWidth := s.frameBufferWidth
                 frameBufferHeight := s.frameBufferHeight
                 frameBufferPitch := s.frameBufferPitch
                 frameBufferDepth := s.frameBufferDepth
                 frameBufferPixelOrder := s.frameBufferPixelOrder
                 frameBufferSize := s.frameBufferSize
                 mbox := m
                 uart := u }
      ∧ u.out = s.uart.out ++ (cstr "Cannot initialize frame buffer" ++ [0x0D, 0x0A]) := by
  obtain ⟨u, h1, h2, _⟩ := uartCalls_spec
    [UartCall.puts (cstr "Cannot initialize frame buffer\n")] s.uart
    (by rw [failureMessage_bytes]; exact hu)
  refine ⟨u, ?_, by rw [h2, failureMessage_bytes]⟩
  unfold initFrameBuffer
  simp only [hq, h1]
  rfl

/-! ### Bit arithmetic for the address mask -/

theorem and_3FFFFFFF (w : Nat) : w &&& 0x3FFFFFFF = w % 2 ^ 30 := by
  have := Nat.and_pow_two_sub_one_eq_mod w 30
  norm_num at this ⊢
  exact this

/-! ### Claims on `initFrameBuffer` -/

/-- C4: whatever the buffer held before, the request `initFrameBuffer` builds has request
code 0 in word 1; its tag walk from word 2 meets exactly the seven tags set-physical-size,
set-virtual-size, set-virtual-offset, set-depth, set-pixel-order, allocate-buffer and
get-pitch, each with length field equal to its buffer-size field, and stops on the zero
terminator at word 34; word 0 is 4 times the 35 words up to and including the terminator;
and every word written lies inside the 36-word buffer. -/
theorem initFrameBuffer_request_wellformed (prior : Nat → Nat) :
    storeWords prior initRequestWrites 1 = 0
    ∧ walkTags (storeWords prior initRequestWrites) 36 2
        = ([(0x00048003, 8, 8), (0x00048004, 8, 8), (0x00048009, 8, 8), (0x00048005, 4, 4),
            (0x00048006, 4, 4), (0x00040001, 8, 8), (0x00040008, 4, 4)], 34)
    ∧ storeWords prior initRequestWrites 34 = 0
    ∧ storeWords prior initRequestWrites 0 = 4 * (34 + 1)
    ∧ storeWords prior initRequestWrites 0 = 140
    ∧ (∀ p ∈ initRequestWrites, p.1 < 36)
    ∧ (∀ t ∈ (walkTags (storeWords prior initRequestWrites) 36 2).1, t.2.2 = t.2.1) := by
  have hw : ∀ i, i < 35 →
      storeWords prior initRequestWrites i
        = ([140, 0, 0x00048003, 8, 8, 1024, 768, 0x00048004, 8, 8, 1024, 768,
            0x00048009, 8, 8, 0, 0, 0x00048005, 4, 4, 32, 0x00048006, 4, 4, 0,
            0x00040001, 8, 8, 4, 0, 0x00040008, 4, 4, 0, 0] : List Nat).getD i 0 := by
    intro i hi
    interval_cases i <;> rfl
  have hwalk : walkTags (storeWords prior initRequestWrites) 36 2
        = ([(0x00048003, 8, 8), (0x00048004, 8, 8), (0x00048009, 8, 8), (0x00048005, 4, 4),
            (0x00048006, 4, 4), (0x00040001, 8, 8), (0x00040008, 4, 4)], 34) := by
    simp [walkTags, hw]
  refine ⟨by rw [hw 1 (by norm_num)]; rfl, hwalk, by rw [hw 34 (by norm_num)]; rfl,
    by rw [hw 0 (by norm_num)]; rfl, by rw [hw 0 (by norm_num)]; rfl, by decide, ?_⟩
  rw [hwalk]
  decide

/-- C5: when the query succeeds, the base address `initFrameBuffer` stores is the word
`w` the video core left in `mailbox_buffer[28]` masked with `0x3FFFFFFF`: bits 31 and 30
are 0, the low 30 bits are those of `w`, and masking once more changes nothing. -/
theorem initFrameBuffer_address_mask (bufAddr : Nat) (vc : VideoCore) (s : FbState)
    (r : Nat) (m : MboxState)
    (hq : mailbox_query bufAddr CHANNEL_PROPERTY_TAGS_ARMTOVC vc
      (setBuffer s.mbox (storeWords s.mbox.mailbox_buffer initRequestWrites)) = some (r, m))
    (hr : r ≠ 0) (hu : 291 ≤ txReady s.uart.lsr) :
    ∃ s', initFrameBuffer bufAddr vc s = some s'
      ∧ m.mailbox_buffer 28
          = vc (mailboxAddress bufAddr CHANNEL_PROPERTY_TAGS_ARMTOVC)
              (storeWords s.mbox.mailbox_buffer initRequestWrites) 28
      ∧ s'.frameBuffer = m.mailbox_buffer 28 &&& 0x3FFFFFFF
      ∧ s'.frameBuffer.testBit 31 = false
      ∧ s'.frameBuffer.testBit 30 = false
      ∧ s'.frameBuffer % 2 ^ 30 = m.mailbox_buffer 28 % 2 ^ 30
      ∧ (∀ i, i < 30 → s'.frameBuffer.testBit i = (m.mailbox_buffer 28).testBit i)
      ∧ s'.frameBuffer &&& 0x3FFFFFFF = s'.frameBuffer := by
  obtain ⟨s', h1, h2, _⟩ := initFrameBuffer_success bufAddr vc s r m hq hr hu
  have hb := (mailbox_query_buffer _ _ _ _ _ _ hq).1
  refine ⟨s', h1, by rw [hb]; rfl, h2, ?_, ?_, ?_, ?_, ?_⟩
  · rw [h2, and_3FFFFFFF, Nat.testBit_mod_two_pow]; simp
  · rw [h2, and_3FFFFFFF, Nat.testBit_mod_two_pow]; simp
  · rw [h2, and_3FFFFFFF, Nat.mod_mod]
  · intro i hi
    rw [h2, and_3FFFFFFF, Nat.testBit_mod_two_pow]; simp [hi]
  · rw [h2, and_3FFFFFFF, and_3FFFFFFF, Nat.mod_mod]

/-- Witness of `initFrameBuffer_address_mask`: the video core returns the bus address
`0xFE402000`, and the stored base address is `0x3E402000`. -/
theorem initFrameBuffer_address_mask_witness :
    ∃ s', initFrameBuffer 0x1000 firmwareReply (demoState 0) = some s'
      ∧ (demoAnswered firmwareReply).mailbox_buffer 28
          = firmwareReply (mailboxAddress 0x1000 CHANNEL_PROPERTY_TAGS_ARMTOVC)
              (storeWords (demoState 0).mbox.mailbox_buffer initRequestWrites) 28
      ∧ s'.frameBuffer = 0xFE402000 &&& 0x3FFFFFFF
      ∧ s'.frameBuffer.testBit 31 = false
      ∧ s'.frameBuffer.testBit 30 = false
      ∧ s'.frameBuffer % 2 ^ 30 = 0xFE402000 % 2 ^ 30
      ∧ (∀ i, i < 30 → s'.frameBuffer.testBit i = (0xFE402000 : Nat).testBit i)
      ∧ s'.frameBuffer &&& 0x3FFFFFFF = s'.frameBuffer :=
  initFrameBuffer_address_mask 0x1000 firmwareReply (demoState 0) 1 (demoAnswered firmwareReply)
    rfl (by decide) (by rw [demoState_txReady]; norm_num)

/-- C6: when the query succeeds, `initFrameBuffer` sets width, height, depth, pixel
order, size and pitch to words 5, 6, 20, 24, 29 and 33 of the buffer as the video core
left it in answer to the request. -/
theorem initFrameBuffer_descriptor (bufAddr : Nat) (vc : VideoCore) (s : FbState)
    (r : Nat) (m : MboxState)
    (hq : mailbox_query bufAddr CHANNEL_PROPERTY_TAGS_ARMTOVC vc
      (setBuffer s.mbox (storeWords s.mbox.mailbox_buffer initRequestWrites)) = some (r, m))
    (hr : r ≠ 0) (hu : 291 ≤ txReady s.uart.lsr) :
    ∃ s', initFrameBuffer bufAddr vc s = some s'
      ∧ m.mailbox_buffer = vc (mailboxAddress bufAddr CHANNEL_PROPERTY_TAGS_ARMTOVC)
          (storeWords s.mbox.mailbox_buffer initRequestWrites)
      ∧ s'.frameBufferWidth = m.mailbox_buffer 5
      ∧ s'.frameBufferHeight = m.mailbox_buffer 6
      ∧ s'.frameBufferDepth = m.mailbox_buffer 20
      ∧ s'.frameBufferPixelOrder = m.mailbox_buffer 24
      ∧ s'.frameBufferSize = m.mailbox_buffer 29
      ∧ s'.frameBufferPitch = m.mailbox_buffer 33 := by
  obtain ⟨s', h1, _, h3, h4, h5, h6, h7, h8⟩ :=
    initFrameBuffer_success bufAddr vc s r m hq hr hu
  exact ⟨s', h1, (mailbox_query_buffer _ _ _ _ _ _ hq).1, h3, h4, h6, h7, h8, h5⟩

/-- Witness of `initFrameBuffer_descriptor`: 1024 by 768 was asked for, the video core
grants 800 by 600, and the descriptor holds what was granted. -/
theorem initFrameBuffer_descriptor_witness :
    ∃ s', initFrameBuffer 0x1000 firmwareReply (demoState 0) = some s'
      ∧ (demoAnswered firmwareReply).mailbox_buffer
          = firmwareReply (mailboxAddress 0x1000 CHANNEL_PROPERTY_TAGS_ARMTOVC)
              (storeWords (demoState 0).mbox.mailbox_buffer initRequestWrites)
      ∧ s'.frameBufferWidth = 800
      ∧ s'.frameBufferHeight = 600
      ∧ s'.frameBufferDepth = 32
      ∧ s'.frameBufferPixelOrder = 0
      ∧ s'.frameBufferSize = 1920000
      ∧ s'.frameBufferPitch = 3200 :=
  initFrameBuffer_descriptor 0x1000 firmwareReply (demoState 0) 1 (demoAnswered firmwareReply)
    rfl (by decide) (by rw [demoState_txReady]; norm_num)

/-- C7: when `mailbox_query` returns zero, `initFrameBuffer` returns with all seven
descriptor variables as they were, and what it has handed to the UART is the one message
`Cannot initialize frame buffer` followed by carriage return and line feed. -/
theorem initFrameBuffer_failure_unset (bufAddr : Nat) (vc : VideoCore) (s : FbState)
    (m : MboxState)
    (hq : mailbox_query bufAddr CHANNEL_PROPERTY_TAGS_ARMTOVC vc
      (setBuffer s.mbox (storeWords s.mbox.mailbox_buffer initRequestWrites)) = some (0, m))
    (hu : 32 ≤ txReady s.uart.lsr) :
    ∃ s', initFrameBuffer bufAddr vc s = some s'
      ∧ s'.frameBuffer = s.frameBuffer
      ∧ s'.frameBufferWidth = s.frameBufferWidth
      ∧ s'.frameBufferHeight = s.frameBufferHeight
      ∧ s'.frameBufferPitch = s.frameBufferPitch
      ∧ s'.frameBufferDepth = s.frameBufferDepth
      ∧ s'.frameBufferPixelOrder = s.frameBufferPixelOrder
      ∧ s'.frameBufferSize = s.frameBufferSize
      ∧ s'.uart.out = s.uart.out ++ (cstr "Cannot initialize frame buffer" ++ [0x0D, 0x0A]) := by
  obtain ⟨u, h1, h2⟩ := initFrameBuffer_failure bufAddr vc s m hq hu
  exact ⟨_, h1, rfl, rfl, rfl, rfl, rfl, rfl, rfl, h2⟩

/-- Witness of `initFrameBuffer_failure_unset`: the video core answers with the error
code; the descriptor variables keep the value 7 they had. -/
theorem initFrameBuffer_failure_unset_witness :
    ∃ s', initFrameBuffer 0x1000 errorReply (demoState 7) = some s'
      ∧ s'.frameBuffer = 7
      ∧ s'.frameBufferWidth = 7
      ∧ s'.frameBufferHeight = 7
      ∧ s'.frameBufferPitch = 7
      ∧ s'.frameBufferDepth = 7
      ∧ s'.frameBufferPixelOrder = 7
      ∧ s'.frameBufferSize = 7
      ∧ s'.uart.out = [] ++ (cstr "Cannot initialize frame buffer" ++ [0x0D, 0x0A]) :=
  initFrameBuffer_failure_unset 0x1000 errorReply (demoState 7) (demoAnswered errorReply)
    rfl (by rw [demoState_txReady]; norm_num)

/-- C8, as stated, fails: a video core that reports success and leaves the value words
of the request as they are (size word 0, pitch word 0) gives the descriptor width 1024,
height 768, depth 32, size 0 and pitch 0. -/
theorem initFrameBuffer_size_bound_counterexample :
    (initFrameBuffer 0x1000 okReply (demoState 0)).map
        (fun s => (s.frameBufferWidth, s.frameBufferHeight, s.frameBufferDepth,
          s.frameBufferSize, s.frameBufferPitch))
      = some (1024, 768, 32, 0, 0)
    ∧ ¬ (0 ≥ 1024 * 768 * (32 / 8)) ∧ ¬ (0 ≥ 1024 * (32 / 8)) := by
  refine ⟨?_, by decide, by decide⟩
  obtain ⟨s', h1, _, h3, h4, h5, h6, _, h8⟩ :=
    initFrameBuffer_success 0x1000 okReply (demoState 0) 1 (demoAnswered okReply)
      rfl (by decide) (by rw [demoState_txReady]; norm_num)
  rw [h1, Option.map_some', h3, h4, h5, h6, h8]
  rfl

/-- C8, amended: when the query succeeds and the words of the response satisfy
`word29 >= word5 * word6 * (word20 / 8)` and `word33 >= word5 * (word20 / 8)`, the
descriptor `initFrameBuffer` produces satisfies `size >= width * height * (depth / 8)`
and `pitch >= width * (depth / 8)`. -/
theorem initFrameBuffer_size_bound (bufAddr : Nat) (vc : VideoCore) (s : FbState)
    (r : Nat) (m : MboxState)
    (hq : mailbox_query bufAddr CHANNEL_PROPERTY_TAGS_ARMTOVC vc
      (setBuffer s.mbox (storeWords s.mbox.mailbox_buffer initRequestWrites)) = some (r, m))
    (hr : r ≠ 0) (hu : 291 ≤ txReady s.uart.lsr)
    (hsize : m.mailbox_buffer 29
      ≥ m.mailbox_buffer 5 * m.mailbox_buffer 6 * (m.mailbox_buffer 20 / 8))
    (hpitch : m.mailbox_buffer 33 ≥ m.mailbox_buffer 5 * (m.mailbox_buffer 20 / 8)) :
    ∃ s', initFrameBuffer bufAddr vc s = some s'
      ∧ s'.frameBufferSize
          ≥ s'.frameBufferWidth * s'.frameBufferHeight * (s'.frameBufferDepth / 8)
      ∧ s'.frameBufferPitch ≥ s'.frameBufferWidth * (s'.frameBufferDepth / 8) := by
  obtain ⟨s', h1, _, h3, h4, h5, h6, _, h8⟩ :=
    initFrameBuffer_success bufAddr vc s r m hq hr hu
  refine ⟨s', h1, ?_, ?_⟩
  · rw [h3, h4, h6, h8]; exact hsize
  · rw [h3, h5, h6]; exact hpitch

/-- Witness of `initFrameBuffer_size_bound`: the video core grants 800 by 600 at 32 bits
with 1920000 bytes and 3200 bytes per row. -/
theorem initFrameBuffer_size_bound_witness :
    ∃ s', initFrameBuffer 0x1000 firmwareReply (demoState 0) = some s'
      ∧ s'.frameBufferSize
          ≥ s'.frameBufferWidth * s'.frameBufferHeight * (s'.frameBufferDepth / 8)
      ∧ s'.frameBufferPitch ≥ s'.frameBufferWidth * (s'.frameBufferDepth / 8) :=
  initFrameBuffer_size_bound 0x1000 firmwareReply (demoState 0) 1 (demoAnswered firmwareReply)
    rfl (by decide) (by rw [demoState_txReady]; norm_num) (by decide) (by decide)

/-! ### Lemmas on the timer -/

theorem get_timer_counter_clo (t : TimerState) (c : Nat) (t' : TimerState)
    (h : get_timer_counter t = some (c, t')) : t'.clo.length < t.clo.length := by
  unfold get_timer_counter at h
  split at h
  · rename_i high high' chi low clo hchi hclo
    split at h
    · split at h
      · simp only [Option.some.injEq, Prod.mk.injEq] at h
        rw [← h.2, hclo]; simp
        omega
      · cases h
    · simp only [Option.some.injEq, Prod.mk.injEq] at h
      rw [← h.2, hclo]; simp
  · cases h

/-- The bound on the rounds of the delay loop is never what stops it. -/
theorem delayLoop_fuel (target : Nat) : ∀ (f1 f2 : Nat) (t : TimerState),
    t.clo.length < f1 → t.clo.length < f2 → delayLoop target f1 t = delayLoop target f2 t := by
  intro f1
  induction f1 with
  | zero => intro f2 t h; omega
  | succ k ih =>
    intro f2 t h1 h2
    cases f2 with
    | zero => omega
    | succ j =>
      unfold delayLoop
      cases hg : get_timer_counter t with
      | none => rfl
      | some p =>
        obtain ⟨c, t'⟩ := p
        have := get_timer_counter_clo t c t' hg
        simp only
        rw [ih j t' (by omega) (by omega)]

theorem delayLoop_last (target : Nat) : ∀ (fuel : Nat) (t : TimerState) (rs : List Nat)
    (t' : TimerState), delayLoop target fuel t = some (rs, t') →
    ∃ last, rs.getLast? = some last ∧ target ≤ last := by
  intro fuel
  induction fuel with
  | zero => intro t rs t' h; simp [delayLoop] at h
  | succ k ih =>
    intro t rs t' h
    unfold delayLoop at h
    cases hg : get_timer_counter t with
    | none => simp [hg] at h
    | some p =>
      obtain ⟨c, t1⟩ := p
      simp only [hg] at h
      split at h
      · cases hd : delayLoop target k t1 with
        | none => simp [hd] at h
        | some q =>
          obtain ⟨rs', t2⟩ := q
          simp only [hd, Option.some.injEq, Prod.mk.injEq] at h
          obtain ⟨last, hl, hle⟩ := ih t1 rs' t2 hd
          refine ⟨last, ?_, hle⟩
          rw [← h.1]
          cases rs' with
          | nil => simp at hl
          | cons x xs => rw [List.getLast?_cons_cons]; exact hl
      · simp only [Option.some.injEq, Prod.mk.injEq] at h
        rename_i hc
        exact ⟨c, by rw [← h.1]; rfl, Nat.le_of_not_lt hc⟩

/-! ### Claims on `microsecond_delay` -/

/-- C9: if `microsecond_delay n` returns, having read the non-zero counter value `c0` at
entry with `c0 + n < 2 ^ 64`, then the last counter value it read is at least `c0 + n`;
hence, when the counter readings are non-decreasing, a reading `after` taken by
`get_timer_counter` after the delay is at least `n` more than a reading `before` taken
before it. -/
theorem microsecond_delay_reaches_target (n : Nat) (t : TimerState) (c0 : Nat)
    (rs : List Nat) (t' : TimerState)
    (h : microsecond_delay n t = some (c0 :: rs, t'))
    (hnz : c0 ≠ 0) (hlt : c0 + n < 2 ^ 64) :
    (∃ last, (c0 :: rs).getLast? = some last ∧ c0 + n ≤ last)
    ∧ ∀ (t0 : TimerState) (before after : Nat) (t3 : TimerState),
        get_timer_counter t0 = some (before, t) →
        get_timer_counter t' = some (after, t3) →
        List.Sorted (fun a b => a ≤ b) (before :: (c0 :: rs) ++ [after]) →
        before + n ≤ after := by
  have hlast : ∃ last, (c0 :: rs).getLast? = some last ∧ c0 + n ≤ last := by
    unfold microsecond_delay at h
    cases hg : get_timer_counter t with
    | none => simp [hg] at h
    | some p =>
      obtain ⟨c, t1⟩ := p
      simp only [hg] at h
      split at h
      · rename_i hc
        simp only [Option.some.injEq, Prod.mk.injEq, List.cons.injEq] at h
        exact absurd (h.1.1 ▸ hc) hnz
      · generalize hd : delayLoop _ (t1.clo.length + 1) t1 = d at h
        cases d with
        | none => simp at h
        | some q =>
          obtain ⟨rs', t2⟩ := q
          simp only [Option.some.injEq, Prod.mk.injEq, List.cons.injEq] at h
          obtain ⟨⟨hc, hrs⟩, _⟩ := h
          subst hc hrs
          obtain ⟨last, hl, hle⟩ := delayLoop_last _ _ _ _ _ hd
          rw [Nat.mod_eq_of_lt hlt] at hle
          refine ⟨last, ?_, hle⟩
          cases rs' with
          | nil => simp at hl
          | cons x xs => rw [List.getLast?_cons_cons]; exact hl
  refine ⟨hlast, ?_⟩
  intro t0 before after t3 _ _ hs
  obtain ⟨last, hl, hle⟩ := hlast
  have hmem : last ∈ c0 :: rs := List.mem_of_getLast?_eq_some hl
  have hs' : List.Pairwise (fun a b => a ≤ b) (before :: ((c0 :: rs) ++ [after])) := hs
  rw [List.pairwise_cons] at hs'
  have h1 : before ≤ c0 := hs'.1 c0 (by simp)
  have h2 : last ≤ after := by
    have := (List.pairwise_append.mp hs'.2).2.2 last hmem after (by simp)
    exact this
  omega

/-- Witness of `microsecond_delay_reaches_target`: a delay of 10 on a counter that reads
95 before the call, 100, 105 and 112 during it and 130 after it. -/
theorem microsecond_delay_reaches_target_witness :
    (∃ last, ([100, 105, 112] : List Nat).getLast? = some last ∧ 100 + 10 ≤ last)
    ∧ 95 + 10 ≤ 130 :=
  ⟨(microsecond_delay_reaches_target 10 demoTimer 100 [105, 112] { chi := [0, 0], clo := [130] }
      rfl (by decide) (by norm_num)).1,
    (microsecond_delay_reaches_target 10 demoTimer 100 [105, 112] { chi := [0, 0], clo := [130] }
      rfl (by decide) (by norm_num)).2
      { chi := [0, 0, 0, 0, 0, 0, 0, 0, 0, 0], clo := [95, 100, 105, 112, 130] } 95 130
      { chi := [], clo := [] } rfl rfl (by simp [List.Sorted])⟩

/-- C10: if the counter value read at entry is 0, `microsecond_delay` returns for every
interval, the only counter value it has read is that 0, and the timer is left as it was
right after that one call of `get_timer_counter`: no further register is read. -/
theorem microsecond_delay_zero_counter (n : Nat) (t t1 : TimerState)
    (h : get_timer_counter t = some (0, t1)) :
    microsecond_delay n t = some ([0], t1) := by
  unfold microsecond_delay
  rw [h]
  rfl

/-- Witness of `microsecond_delay_zero_counter`: a timer whose registers all read 0. -/
theorem microsecond_delay_zero_counter_witness :
    microsecond_delay 16667 deadTimer = some ([0], { chi := [0, 0], clo := [0] }) :=
  microsecond_delay_zero_counter 16667 deadTimer { chi := [0, 0], clo := [0] } rfl

/-! ### Claims on `get_timer_counter` -/

theorem shiftLeft32_or (h l : Nat) (hl : l < 2 ^ 32) : (h <<< 32) ||| l = h * 2 ^ 32 + l := by
  rw [Nat.shiftLeft_eq, Nat.mul_comm, ← Nat.mul_add_lt_is_or hl]

/-- C11: on the register values `h1`, `l1`, `h2` and, if needed, `h3`, `l2`, the function
`get_timer_counter` returns `(h1 << 32) | l1` after three reads when the re-read `h2` of
the high word equals `h1`, and otherwise `(h3 << 32) | l2`, the pair of its one retry,
after five reads; it never reads more than five values, and for 32-bit register values
the result is `high * 2 ^ 32 + low`, a 64-bit value. -/
theorem get_timer_counter_value (h1 l1 h2 h3 l2 : Nat) (chi clo : List Nat)
    (hh1 : h1 < 2 ^ 32) (hl1 : l1 < 2 ^ 32) (hh3 : h3 < 2 ^ 32) (hl2 : l2 < 2 ^ 32) :
    get_timer_counter { chi := h1 :: h2 :: h3 :: chi, clo := l1 :: l2 :: clo }
      = (if h2 = h1 then some ((h1 <<< 32) ||| l1, { chi := h3 :: chi, clo := l2 :: clo })
         else some ((h3 <<< 32) ||| l2, { chi := chi, clo := clo }))
    ∧ (∀ c t', get_timer_counter { chi := h1 :: h2 :: h3 :: chi, clo := l1 :: l2 :: clo }
          = some (c, t') →
        ((h1 :: h2 :: h3 :: chi).length - t'.chi.length)
          + ((l1 :: l2 :: clo).length - t'.clo.length) ≤ 5)
    ∧ (h1 <<< 32) ||| l1 = h1 * 2 ^ 32 + l1 ∧ (h1 <<< 32) ||| l1 < 2 ^ 64
    ∧ (h3 <<< 32) ||| l2 = h3 * 2 ^ 32 + l2 ∧ (h3 <<< 32) ||| l2 < 2 ^ 64 := by
  have e : get_timer_counter { chi := h1 :: h2 :: h3 :: chi, clo := l1 :: l2 :: clo }
      = (if h2 = h1 then some ((h1 <<< 32) ||| l1, { chi := h3 :: chi, clo := l2 :: clo })
         else some ((h3 <<< 32) ||| l2, { chi := chi, clo := clo })) := by
    by_cases h : h2 = h1
    · subst h; simp [get_timer_counter]
    · have h' : ¬ h1 = h2 := fun e => h e.symm
      simp [get_timer_counter, h, h']
  have b1 := shiftLeft32_or h1 l1 hl1
  have b3 := shiftLeft32_or h3 l2 hl2
  refine ⟨e, ?_, b1, ?_, b3, ?_⟩
  · intro c t' hc
    rw [e] at hc
    split at hc
    · simp only [Option.some.injEq, Prod.mk.injEq] at hc
      rw [← hc.2]
      simp only [List.length_cons]
      omega
    · simp only [Option.some.injEq, Prod.mk.injEq] at hc
      rw [← hc.2]
      simp only [List.length_cons]
      omega
  · rw [b1]
    have : h1 * 2 ^ 32 ≤ (2 ^ 32 - 1) * 2 ^ 32 := Nat.mul_le_mul_right _ (by omega)
    norm_num at this hl1 ⊢
    omega
  · rw [b3]
    have : h3 * 2 ^ 32 ≤ (2 ^ 32 - 1) * 2 ^ 32 := Nat.mul_le_mul_right _ (by omega)
    norm_num at this hl2 ⊢
    omega

/-- Witness of `get_timer_counter_value`: the high word reads 1 and then 2, so the pair
of the retry, high 2 and low 5, is returned. -/
theorem get_timer_counter_value_witness :
    get_timer_counter rolloverTimer = some ((2 <<< 32) ||| 5, { chi := [2, 2], clo := [9] })
    ∧ (2 <<< 32) ||| 5 = 2 * 2 ^ 32 + 5 :=
  ⟨(get_timer_counter_value 1 0xFFFFFFFF 2 2 5 [2, 2] [9] (by norm_num) (by norm_num)
      (by norm_num) (by norm_num)).1,
    (get_timer_counter_value 1 0xFFFFFFFF 2 2 5 [2, 2] [9] (by norm_num) (by norm_num)
      (by norm_num) (by norm_num)).2.2.2.2.1⟩

/-! ### Lemmas on `get_SNES` -/

theorem replicate_two_mul_succ (n v : Nat) :
    List.replicate (2 * (n + 1)) v = v :: v :: List.replicate (2 * n) v := by
  rw [show 2 * (n + 1) = 2 * n + 1 + 1 by omega, List.replicate_succ, List.replicate_succ]

theorem get_SNES_loop_spec : ∀ (ds : List Nat) (i data : Nat) (s : GpioState)
    (rest : List Nat) (t' : TimerState),
    s.gplev0 = ds ++ rest →
    runDelays (List.replicate (2 * ds.length) 6) s.timer = some t' →
    get_SNES_loop ds.length i data s
      = some (snesData ds i data,
          { gpfsel0 := s.gpfsel0, gpfsel1 := s.gpfsel1, gppud := s.gppud,
            gppudclk0 := s.gppudclk0, gplev0 := rest, timer := t',
            trace := s.trace ++ ds.flatMap clockPulse }) := by
  intro ds
  induction ds with
  | nil =>
    intro i data s rest t' hl hd
    simp only [List.length_nil, Nat.mul_zero, List.replicate_zero, runDelays,
      Option.some.injEq] at hd
    simp only [List.nil_append] at hl
    subst hd
    subst hl
    simp [get_SNES_loop, snesData]
  | cons r ds ih =>
    intro i data s rest t' hl hd
    rw [List.length_cons, replicate_two_mul_succ] at hd
    simp only [runDelays] at hd
    cases h1 : microsecond_delay 6 s.timer with
    | none => simp [h1] at hd
    | some p1 =>
      obtain ⟨rs1, t1⟩ := p1
      simp only [h1] at hd
      cases h2 : microsecond_delay 6 t1 with
      | none => simp [h2] at hd
      | some p2 =>
        obtain ⟨rs2, t2⟩ := p2
        simp only [h2] at hd
        simp only [List.length_cons, get_SNES_loop, delayCall, h1, clear_GPIO11, mmioWrite,
          logEvent, get_GPIO10, hl, List.cons_append, h2, set_GPIO11]
        rw [ih (i + 1) _ _ rest t' rfl hd]
        simp [snesData, dataLevel, clockPulse]

theorem get_SNES_spec (s : GpioState) (ds rest : List Nat) (t' : TimerState)
    (hl : s.gplev0 = ds ++ rest) (hlen : ds.length = 16)
    (hd : runDelays (12 :: List.replicate 32 6) s.timer = some t') :
    get_SNES s
      = some (snesData ds 0 0,
          { gpfsel0 := s.gpfsel0, gpfsel1 := s.gpfsel1, gppud := s.gppud,
            gppudclk0 := s.gppudclk0, gplev0 := rest, timer := t',
            trace := s.trace ++ snesTrace ds }) := by
  unfold runDelays at hd
  cases h1 : microsecond_delay 12 s.timer with
  | none => simp [h1] at hd
  | some p1 =>
    obtain ⟨rs1, t1⟩ := p1
    simp only [h1] at hd
    have hd' : runDelays (List.replicate (2 * ds.length) 6) t1 = some t' := by
      rw [hlen]; exact hd
    simp only [get_SNES, delayCall, set_GPIO9, mmioWrite, logEvent, h1, clear_GPIO9]
    rw [← hlen]
    refine (get_SNES_loop_spec ds 0 0 _ rest t' ?_ ?_).trans ?_
    · exact hl
    · exact hd'
    · simp [snesTrace]

theorem testBit_eq_false_of_lt (x i j : Nat) (hx : x < 2 ^ i) (hij : i ≤ j) :
    x.testBit j = false :=
  Nat.testBit_lt_two_pow (lt_of_lt_of_le hx (Nat.pow_le_pow_right (by norm_num) hij))

/-- The statement `data |= (0x1 << i)` on an `unsigned short` that has no bit at or above
`i` yet: bit `i` is set, nothing else changes, and nothing is cut off. -/
theorem setBit_spec (data i : Nat) (h : data < 2 ^ i) (hi : i < 16) :
    (data ||| (0x1 <<< i)) % 2 ^ 16 < 2 ^ (i + 1)
    ∧ ∀ j, ((data ||| (0x1 <<< i)) % 2 ^ 16).testBit j = (data.testBit j || decide (j = i)) := by
  have hlt : data ||| (0x1 <<< i) < 2 ^ (i + 1) := by
    apply Nat.or_lt_two_pow
    · exact lt_of_lt_of_le h (Nat.pow_le_pow_right (by norm_num) (by omega))
    · rw [Nat.one_shiftLeft]
      exact Nat.pow_lt_pow_right (by norm_num) (by omega)
  have hle : 2 ^ (i + 1) ≤ 2 ^ 16 := Nat.pow_le_pow_right (by norm_num) (by omega)
  have hmod : (data ||| (0x1 <<< i)) % 2 ^ 16 = data ||| (0x1 <<< i) :=
    Nat.mod_eq_of_lt (lt_of_lt_of_le hlt hle)
  rw [hmod]
  refine ⟨hlt, ?_⟩
  intro j
  rw [Nat.testBit_or, Nat.one_shiftLeft, Nat.testBit_two_pow]
  by_cases e : j = i
  · simp [e]
  · have e' : ¬ i = j := fun h => e h.symm
    simp [e, e']

theorem snesData_bits : ∀ (ds : List Nat) (i data : Nat), data < 2 ^ i → i + ds.length ≤ 16 →
    snesData ds i data < 2 ^ (i + ds.length)
    ∧ ∀ j, (snesData ds i data).testBit j
        = if j < i then data.testBit j else decide (dataLevel (ds.getD (j - i) 0x400) = 0) := by
  intro ds
  induction ds with
  | nil =>
    intro i data h _
    refine ⟨by simpa [snesData] using h, ?_⟩
    intro j
    by_cases hj : j < i
    · simp [snesData, hj]
    · rw [if_neg hj]
      simp only [snesData, List.getD_nil]
      rw [testBit_eq_false_of_lt data i j h (by omega)]
      simp [dataLevel]
  | cons r ds ih =>
    intro i data h hlen
    simp only [List.length_cons] at hlen
    have key : ∃ d, (if dataLevel r = 0 then (data ||| (0x1 <<< i)) % 2 ^ 16 else data) = d
        ∧ d < 2 ^ (i + 1)
        ∧ ∀ j, d.testBit j = (data.testBit j || (decide (j = i) && decide (dataLevel r = 0))) := by
      by_cases hr : dataLevel r = 0
      · obtain ⟨a, b⟩ := setBit_spec data i h (by omega)
        refine ⟨_, rfl, by rw [if_pos hr]; exact a, ?_⟩
        intro j
        rw [if_pos hr, b j]
        simp [hr]
      · refine ⟨_, rfl, ?_, ?_⟩
        · rw [if_neg hr]
          exact lt_of_lt_of_le h (Nat.pow_le_pow_right (by norm_num) (by omega))
        · intro j; simp [hr]
    obtain ⟨d, hd, hdlt, hdbit⟩ := key
    obtain ⟨a, b⟩ := ih (i + 1) d hdlt (by omega)
    simp only [snesData, hd, List.length_cons]
    refine ⟨by rw [show i + (ds.length + 1) = i + 1 + ds.length by omega]; exact a, ?_⟩
    intro j
    rw [b j, hdbit j]
    by_cases h1 : j < i
    · have : j < i + 1 := by omega
      have e : ¬ j = i := by omega
      simp [h1, this, e]
    · by_cases h2 : j = i
      · subst h2
        simp [testBit_eq_false_of_lt data j j h (le_refl _)]
      · have h3 : ¬ j < i + 1 := by omega
        have e : j - i = (j - (i + 1)) + 1 := by omega
        rw [if_neg h3, if_neg h1, e, List.getD_cons_succ]

theorem snesData_16 (ds : List Nat) (hlen : ds.length = 16) :
    snesData ds 0 0 < 2 ^ 16
    ∧ ∀ i, i < 16 → (snesData ds 0 0).testBit i = decide (dataLevel (ds.getD i 0) = 0) := by
  obtain ⟨a, b⟩ := snesData_bits ds 0 0 (by norm_num) (by omega)
  refine ⟨by simpa [hlen] using a, ?_⟩
  intro i hi
  rw [b i]
  simp only [Nat.not_lt_zero, if_false, Nat.sub_zero]
  have e : ds.getD i 0x400 = ds.getD i 0 := by
    rw [List.getD_eq_getElem ds 0x400 (by omega), List.getD_eq_getElem ds 0 (by omega)]
  simp only [e]

theorem eq_of_testBit_16 (x y : Nat) (hx : x < 2 ^ 16) (hy : y < 2 ^ 16)
    (h : ∀ i, i < 16 → x.testBit i = y.testBit i) : x = y := by
  apply Nat.eq_of_testBit_eq
  intro i
  by_cases hi : i < 16
  · exact h i hi
  · rw [testBit_eq_false_of_lt x 16 i hx (by omega), testBit_eq_false_of_lt y 16 i hy (by omega)]

theorem levelReads_append (a b : List GpioEvent) :
    levelReads (a ++ b) = levelReads a ++ levelReads b := by
  induction a with
  | nil => rfl
  | cons e a ih =>
    cases e with
    | read reg v => cases reg <;> simp [levelReads, ih]
    | write reg v => simp [levelReads, ih]
    | nop => simp [levelReads, ih]
    | delay n => simp [levelReads, ih]

theorem levelReads_snesTrace (ds : List Nat) : levelReads (snesTrace ds) = ds := by
  have h : ∀ l : List Nat, levelReads (l.flatMap clockPulse) = l := by
    intro l
    induction l with
    | nil => rfl
    | cons r l ih =>
      rw [List.flatMap_cons, levelReads_append, ih]
      rfl
  rw [snesTrace, levelReads_append, h]
  rfl

theorem runDelays_dead : ∀ (ns : List Nat) (chi clo : List Nat),
    runDelays ns { chi := List.replicate (2 * ns.length) 0 ++ chi,
                   clo := List.replicate ns.length 0 ++ clo }
      = some { chi := chi, clo := clo } := by
  intro ns
  induction ns with
  | nil => intro chi clo; rfl
  | cons n ns ih =>
    intro chi clo
    rw [List.length_cons, replicate_two_mul_succ, List.replicate_succ]
    simp only [runDelays, microsecond_delay, get_timer_counter, List.cons_append]
    simpa using ih chi clo

theorem padTimer_delays :
    runDelays (12 :: List.replicate 32 6)
        { chi := List.replicate 66 0, clo := List.replicate 33 0 }
      = some { chi := [], clo := [] } := by
  have h := runDelays_dead (12 :: List.replicate 32 6) [] []
  simpa using h

/-! ### Claims on `get_SNES` -/

/-- C12: when the 16 readings `ds` of `GPLEV0` are there and the 33 delays end,
`get_SNES` returns a 16-bit value whose bit `i` is 1 exactly when the DATA level of
sample `i` is 0; if only sample `i` is low the value is `1 << i`, and these 16 values
are distinct; and any other call whose 16 samples show the same DATA levels returns the
same value, whatever else its state holds. -/
theorem get_SNES_bits (s : GpioState) (ds rest : List Nat) (t' : TimerState)
    (hl : s.gplev0 = ds ++ rest) (hlen : ds.length = 16)
    (hd : runDelays (12 :: List.replicate 32 6) s.timer = some t') :
    ∃ data s', get_SNES s = some (data, s')
      ∧ data < 2 ^ 16
      ∧ (∀ i, i < 16 → (data.testBit i = true ↔ dataLevel (ds.getD i 0) = 0))
      ∧ (∀ i, i < 16 → (∀ j, j < 16 → (dataLevel (ds.getD j 0) = 0 ↔ j = i)) →
          data = 0x1 <<< i)
      ∧ (∀ i j : Nat, i < 16 → j < 16 → (0x1 <<< i : Nat) = 0x1 <<< j → i = j)
      ∧ (∀ (s2 : GpioState) (ds2 rest2 : List Nat) (t2 : TimerState),
          s2.gplev0 = ds2 ++ rest2 → ds2.length = 16 →
          runDelays (12 :: List.replicate 32 6) s2.timer = some t2 →
          (∀ i, i < 16 → dataLevel (ds2.getD i 0) = dataLevel (ds.getD i 0)) →
          ∃ s2', get_SNES s2 = some (data, s2')) := by
  obtain ⟨hlt, hbit⟩ := snesData_16 ds hlen
  refine ⟨_, _, get_SNES_spec s ds rest t' hl hlen hd, hlt, ?_, ?_, ?_, ?_⟩
  · intro i hi
    rw [hbit i hi]
    simp
  · intro i hi hone
    apply eq_of_testBit_16 _ _ hlt
    · rw [Nat.one_shiftLeft]
      exact Nat.pow_lt_pow_right (by norm_num) hi
    · intro j hj
      rw [hbit j hj, Nat.one_shiftLeft, Nat.testBit_two_pow]
      by_cases e : j = i
      · have := (hone j hj).2 e
        rw [decide_eq_true this, decide_eq_true e.symm]
      · have h1 : ¬ dataLevel (ds.getD j 0) = 0 := fun h => e ((hone j hj).1 h)
        have e' : ¬ i = j := fun h => e h.symm
        rw [decide_eq_false h1, decide_eq_false e']
  · intro i j _ _ h
    rw [Nat.one_shiftLeft, Nat.one_shiftLeft] at h
    exact Nat.pow_right_injective (le_refl 2) h
  · intro s2 ds2 rest2 t2 hl2 hlen2 hd2 hsame
    obtain ⟨hlt2, hbit2⟩ := snesData_16 ds2 hlen2
    have e : snesData ds2 0 0 = snesData ds 0 0 := by
      apply eq_of_testBit_16 _ _ hlt2 hlt
      intro i hi
      rw [hbit2 i hi, hbit i hi, hsame i hi]
    exact ⟨_, by rw [← e]; exact get_SNES_spec s2 ds2 rest2 t2 hl2 hlen2 hd2⟩

/-- Witness of `get_SNES_bits`: only sample 3 (START) is low, and the value is 8. -/
theorem get_SNES_bits_witness :
    ∃ data s', get_SNES (padWith (onePressed 3)) = some (data, s')
      ∧ data < 2 ^ 16
      ∧ (∀ i, i < 16 → (data.testBit i = true ↔ dataLevel ((onePressed 3).getD i 0) = 0))
      ∧ (∀ i, i < 16 → (∀ j, j < 16 → (dataLevel ((onePressed 3).getD j 0) = 0 ↔ j = i)) →
          data = 0x1 <<< i)
      ∧ (∀ i j : Nat, i < 16 → j < 16 → (0x1 <<< i : Nat) = 0x1 <<< j → i = j)
      ∧ (∀ (s2 : GpioState) (ds2 rest2 : List Nat) (t2 : TimerState),
          s2.gplev0 = ds2 ++ rest2 → ds2.length = 16 →
          runDelays (12 :: List.replicate 32 6) s2.timer = some t2 →
          (∀ i, i < 16 → dataLevel (ds2.getD i 0) = dataLevel ((onePressed 3).getD i 0)) →
          ∃ s2', get_SNES s2 = some (data, s2')) :=
  get_SNES_bits (padWith (onePressed 3)) (onePressed 3) [] { chi := [], clo := [] }
    (by simp [padWith]) (by decide) padTimer_delays

/-- C13, the failing input: with the DATA line low at all 16 samples (no controller
attached, the line pulled down), `get_SNES` returns `0xFFFF`, in which bits 12 to 15 are
all 1. -/
theorem get_SNES_high_bits_set :
    (get_SNES unpluggedPad).map Prod.fst = some 0xFFFF
    ∧ Nat.testBit 0xFFFF 12 = true ∧ Nat.testBit 0xFFFF 13 = true
    ∧ Nat.testBit 0xFFFF 14 = true ∧ Nat.testBit 0xFFFF 15 = true := by
  refine ⟨?_, by decide, by decide, by decide, by decide⟩
  rw [get_SNES_spec unpluggedPad (List.replicate 16 0) [] { chi := [], clo := [] }
    (by simp [unpluggedPad]) (by decide) padTimer_delays]
  decide

/-- C14: when the 16 readings `ds` of `GPLEV0` are there and the 33 delays end, the
accesses of `get_SNES` are exactly: set pin 9, delay 12, clear pin 9, and then for each
reading in turn delay 6, clear pin 11, read `GPLEV0`, delay 6, set pin 11; so `GPLEV0` is
read exactly 16 times, and the readings after the sixteenth stay unread. -/
theorem get_SNES_trace (s : GpioState) (ds rest : List Nat) (t' : TimerState)
    (hl : s.gplev0 = ds ++ rest) (hlen : ds.length = 16)
    (hd : runDelays (12 :: List.replicate 32 6) s.timer = some t') :
    ∃ data s', get_SNES s = some (data, s')
      ∧ s'.trace = s.trace ++
          ([GpioEvent.write GpioReg.GPSET0 (0x1 <<< 9), GpioEvent.delay 12,
            GpioEvent.write GpioReg.GPCLR0 (0x1 <<< 9)]
          ++ ds.flatMap (fun r =>
            [GpioEvent.delay 6, GpioEvent.write GpioReg.GPCLR0 (0x1 <<< 11),
             GpioEvent.read GpioReg.GPLEV0 r, GpioEvent.delay 6,
             GpioEvent.write GpioReg.GPSET0 (0x1 <<< 11)]))
      ∧ levelReads (snesTrace ds) = ds
      ∧ (levelReads (snesTrace ds)).length = 16
      ∧ (snesTrace ds).length = 3 + 16 * 5
      ∧ s'.gplev0 = rest := by
  refine ⟨_, _, get_SNES_spec s ds rest t' hl hlen hd, rfl, levelReads_snesTrace ds, ?_, ?_, rfl⟩
  · rw [levelReads_snesTrace, hlen]
  · have h : ∀ l : List Nat, (l.flatMap clockPulse).length = l.length * 5 := by
      intro l
      induction l with
      | nil => rfl
      | cons r l ih =>
        rw [List.flatMap_cons, List.length_append, ih, List.length_cons]
        simp [clockPulse]
        omega
    rw [snesTrace, List.length_append, h, hlen]
    rfl

/-- Witness of `get_SNES_trace`: a controller read with only sample 3 low. -/
theorem get_SNES_trace_witness :
    ∃ data s', get_SNES (padWith (onePressed 3)) = some (data, s')
      ∧ s'.trace = (padWith (onePressed 3)).trace ++
          ([GpioEvent.write GpioReg.GPSET0 (0x1 <<< 9), GpioEvent.delay 12,
            GpioEvent.write GpioReg.GPCLR0 (0x1 <<< 9)]
          ++ (onePressed 3).flatMap (fun r =>
            [GpioEvent.delay 6, GpioEvent.write GpioReg.GPCLR0 (0x1 <<< 11),
             GpioEvent.read GpioReg.GPLEV0 r, GpioEvent.delay 6,
             GpioEvent.write GpioReg.GPSET0 (0x1 <<< 11)]))
      ∧ levelReads (snesTrace (onePressed 3)) = onePressed 3
      ∧ (levelReads (snesTrace (onePressed 3))).length = 16
      ∧ (snesTrace (onePressed 3)).length = 3 + 16 * 5
      ∧ s'.gplev0 = [] :=
  get_SNES_trace (padWith (onePressed 3)) (onePressed 3) [] { chi := [], clo := [] }
    (by simp [padWith]) (by decide) padTimer_delays

/-! ### Lemmas on the pin configuration routines -/

theorem nopLoop_spec : ∀ (n : Nat) (s : GpioState),
    nopLoop n s
      = { gpfsel0 := s.gpfsel0, gpfsel1 := s.gpfsel1, gppud := s.gppud,
          gppudclk0 := s.gppudclk0, gplev0 := s.gplev0, timer := s.timer,
          trace := s.trace ++ List.replicate n GpioEvent.nop } := by
  intro n
  induction n with
  | zero => intro s; simp [nopLoop]
  | succ n ih =>
    intro s
    rw [nopLoop, ih]
    simp [logEvent, List.replicate_succ]

theorem init_GPIO9_to_output_spec (s : GpioState) :
    init_GPIO9_to_output s
      = { gpfsel0 := (s.gpfsel0 &&& not32 (0x7 <<< 27)) ||| (0x1 <<< 27),
          gpfsel1 := s.gpfsel1, gppud := 0, gppudclk0 := 0,
          gplev0 := s.gplev0, timer := s.timer,
          trace := s.trace ++
            ([GpioEvent.read GpioReg.GPFSEL0 s.gpfsel0,
              GpioEvent.write GpioReg.GPFSEL0
                ((s.gpfsel0 &&& not32 (0x7 <<< 27)) ||| (0x1 <<< 27)),
              GpioEvent.write GpioReg.GPPUD 0]
            ++ List.replicate 150 GpioEvent.nop
            ++ [GpioEvent.write GpioReg.GPPUDCLK0 (0x1 <<< 9)]
            ++ List.replicate 150 GpioEvent.nop
            ++ [GpioEvent.write GpioReg.GPPUDCLK0 0]) } := by
  simp only [init_GPIO9_to_output, mmioWrite, logEvent, nopLoop_spec, List.append_assoc,
    List.cons_append, List.nil_append]

theorem init_GPIO11_to_output_spec (s : GpioState) :
    init_GPIO11_to_output s
      = { gpfsel0 := s.gpfsel0,
          gpfsel1 := (s.gpfsel1 &&& not32 (0x7 <<< 3)) ||| (0x1 <<< 3),
          gppud := 0, gppudclk0 := 0,
          gplev0 := s.gplev0, timer := s.timer,
          trace := s.trace ++
            ([GpioEvent.read GpioReg.GPFSEL1 s.gpfsel1,
              GpioEvent.write GpioReg.GPFSEL1
                ((s.gpfsel1 &&& not32 (0x7 <<< 3)) ||| (0x1 <<< 3)),
              GpioEvent.write GpioReg.GPPUD 0]
            ++ List.replicate 150 GpioEvent.nop
            ++ [GpioEvent.write GpioReg.GPPUDCLK0 (0x1 <<< 11)]
            ++ List.replicate 150 GpioEvent.nop
            ++ [GpioEvent.write GpioReg.GPPUDCLK0 0]) } := by
  simp only [init_GPIO11_to_output, mmioWrite, logEvent, nopLoop_spec, List.append_assoc,
    List.cons_append, List.nil_append]

theorem init_GPIO10_to_input_spec (s : GpioState) :
    init_GPIO10_to_input s
      = { gpfsel0 := s.gpfsel0,
          gpfsel1 := s.gpfsel1 &&& not32 (0x7 <<< 0),
          gppud := 0, gppudclk0 := 0,
          gplev0 := s.gplev0, timer := s.timer,
          trace := s.trace ++
            ([GpioEvent.read GpioReg.GPFSEL1 s.gpfsel1,
              GpioEvent.write GpioReg.GPFSEL1 (s.gpfsel1 &&& not32 (0x7 <<< 0)),
              GpioEvent.write GpioReg.GPPUD 0]
            ++ List.replicate 150 GpioEvent.nop
            ++ [GpioEvent.write GpioReg.GPPUDCLK0 (0x1 <<< 10)]
            ++ List.replicate 150 GpioEvent.nop
            ++ [GpioEvent.write GpioReg.GPPUDCLK0 0]) } := by
  simp only [init_GPIO10_to_input, mmioWrite, logEvent, nopLoop_spec, List.append_assoc,
    List.cons_append, List.nil_append]

/-! ### Claims on the pin configuration routines -/

/-- C15: for each of the three pin configuration routines the accesses after the write
of the function select register are exactly: pull-control register <- 0, 150 rounds of
the wait loop, pull-clock register 0 <- the mask with only the bit of the pin (`1 << 9`,
`1 << 11`, `1 << 10`), 150 rounds of the wait loop, pull-clock register 0 <- 0. -/
theorem init_GPIO_pull_sequence (s : GpioState) :
    (init_GPIO9_to_output s).trace
      = s.trace ++ [GpioEvent.read GpioReg.GPFSEL0 s.gpfsel0,
          GpioEvent.write GpioReg.GPFSEL0 (init_GPIO9_to_output s).gpfsel0]
        ++ ([GpioEvent.write GpioReg.GPPUD 0]
          ++ List.replicate 150 GpioEvent.nop
          ++ [GpioEvent.write GpioReg.GPPUDCLK0 (0x1 <<< 9)]
          ++ List.replicate 150 GpioEvent.nop
          ++ [GpioEvent.write GpioReg.GPPUDCLK0 0])
    ∧ (init_GPIO11_to_output s).trace
      = s.trace ++ [GpioEvent.read GpioReg.GPFSEL1 s.gpfsel1,
          GpioEvent.write GpioReg.GPFSEL1 (init_GPIO11_to_output s).gpfsel1]
        ++ ([GpioEvent.write GpioReg.GPPUD 0]
          ++ List.replicate 150 GpioEvent.nop
          ++ [GpioEvent.write GpioReg.GPPUDCLK0 (0x1 <<< 11)]
          ++ List.replicate 150 GpioEvent.nop
          ++ [GpioEvent.write GpioReg.GPPUDCLK0 0])
    ∧ (init_GPIO10_to_input s).trace
      = s.trace ++ [GpioEvent.read GpioReg.GPFSEL1 s.gpfsel1,
          GpioEvent.write GpioReg.GPFSEL1 (init_GPIO10_to_input s).gpfsel1]
        ++ ([GpioEvent.write GpioReg.GPPUD 0]
          ++ List.replicate 150 GpioEvent.nop
          ++ [GpioEvent.write GpioReg.GPPUDCLK0 (0x1 <<< 10)]
          ++ List.replicate 150 GpioEvent.nop
          ++ [GpioEvent.write GpioReg.GPPUDCLK0 0])
    ∧ (0x1 <<< 9 : Nat) = 2 ^ 9 ∧ (0x1 <<< 11 : Nat) = 2 ^ 11 ∧ (0x1 <<< 10 : Nat) = 2 ^ 10 := by
  refine ⟨?_, ?_, ?_, by decide, by decide, by decide⟩
  · rw [init_GPIO9_to_output_spec]
    simp only [List.append_assoc, List.cons_append, List.nil_append]
  · rw [init_GPIO11_to_output_spec]
    simp only [List.append_assoc, List.cons_append, List.nil_append]
  · rw [init_GPIO10_to_input_spec]
    simp only [List.append_assoc, List.cons_append, List.nil_append]

/-! ### Bit arithmetic for the function select fields -/

theorem testBit_not32_field (k i : Nat) :
    (not32 (0x7 <<< k)).testBit i
      = (decide (i < 32) ^^ (decide (k ≤ i) && decide (i - k < 3))) := by
  rw [not32, Nat.testBit_xor, Nat.testBit_shiftLeft]
  have e1 : Nat.testBit 0xFFFFFFFF i = decide (i < 32) := Nat.testBit_two_pow_sub_one 32 i
  have e2 : Nat.testBit 0x7 (i - k) = decide (i - k < 3) := Nat.testBit_two_pow_sub_one 3 (i - k)
  rw [e1, e2]

/-- Clearing the 3-bit field at bit `k` of a 32-bit word and setting its lowest bit when
`b` holds: the bits of the result. -/
theorem fsel_update_testBit (r k i : Nat) (b : Bool) (hr : r < 2 ^ 32) (hk : k + 3 ≤ 32) :
    ((r &&& not32 (0x7 <<< k)) ||| (if b then 0x1 <<< k else 0)).testBit i
      = if i = k then b else if k < i ∧ i < k + 3 then false else r.testBit i := by
  rw [Nat.testBit_or, Nat.testBit_and, testBit_not32_field]
  have e3 : (if b then 0x1 <<< k else 0).testBit i = (b && decide (i = k)) := by
    cases b
    · simp
    · simp only [if_true, Nat.one_shiftLeft, Nat.testBit_two_pow, Bool.true_and]
      by_cases e : i = k
      · simp [e]
      · have e' : ¬ k = i := fun h => e h.symm
        simp [e, e']
  rw [e3]
  by_cases h32 : i < 32
  · by_cases e : i = k
    · subst e
      simp [h32]
    · by_cases h1 : k < i
      · by_cases h2 : i < k + 3
        · have h3 : i - k < 3 := by omega
          have h4 : k ≤ i := by omega
          simp [h32, e, h1, h2, h3, h4]
        · have h3 : ¬ i - k < 3 := by omega
          simp [h32, e, h1, h2, h3]
      · have h4 : ¬ k ≤ i := by omega
        simp [h32, e, h1, h4]
  · have hf := testBit_eq_false_of_lt r 32 i hr (by omega)
    have e : ¬ i = k := by omega
    have h2 : ¬ i < k + 3 := by omega
    simp [hf, e, h2]

theorem and_or_idem (x m v : Nat) : (((x &&& m) ||| v) &&& m) ||| v = (x &&& m) ||| v := by
  apply Nat.eq_of_testBit_eq
  intro i
  simp only [Nat.testBit_or, Nat.testBit_and]
  cases x.testBit i <;> cases m.testBit i <;> cases v.testBit i <;> rfl

theorem and_and_idem (x m : Nat) : (x &&& m) &&& m = x &&& m := by
  apply Nat.eq_of_testBit_eq
  intro i
  simp only [Nat.testBit_and]
  cases x.testBit i <;> cases m.testBit i <;> rfl

/-- The 3-bit field at bit `k` after it has been cleared and its lowest bit set when `b`
holds. -/
theorem fsel_field_value (r k : Nat) (b : Bool) (hk : k + 3 ≤ 32) :
    (((r &&& not32 (0x7 <<< k)) ||| (if b then 0x1 <<< k else 0)) >>> k) &&& 0x7
      = if b then 1 else 0 := by
  apply Nat.eq_of_testBit_eq
  intro j
  rw [Nat.testBit_and, Nat.testBit_shiftRight, Nat.testBit_or, Nat.testBit_and,
    testBit_not32_field]
  have e2 : Nat.testBit 0x7 j = decide (j < 3) := Nat.testBit_two_pow_sub_one 3 j
  rw [e2]
  by_cases hj : j < 3
  · have h1 : k + j - k < 3 := by omega
    have h2 : k ≤ k + j := by omega
    have h3 : k + j < 32 := by omega
    cases b
    · simp [hj, h1, h3]
    · simp only [if_true, Nat.one_shiftLeft, Nat.testBit_two_pow]
      by_cases e : j = 0
      · subst e; simp
      · have e' : ¬ k = k + j := by omega
        have e1 : Nat.testBit 1 j = false := by
          rw [show (1 : Nat) = 2 ^ 0 by rfl, Nat.testBit_two_pow]
          simp; omega
        simp [hj, h1, h3, e', e1]
  · have e1 : (if b then 1 else 0 : Nat).testBit j = false := by
      apply testBit_eq_false_of_lt _ 3 j _ (by omega)
      cases b <;> simp
    rw [e1]
    simp [hj]

/-- C16: for 32-bit prior values of the function select registers, each pin
configuration routine changes only the 3-bit field of its pin: `init_GPIO9_to_output`
leaves bits 27 to 29 of `GPFSEL0` at `001`, `init_GPIO11_to_output` leaves bits 3 to 5 of
`GPFSEL1` at `001`, `init_GPIO10_to_input` leaves bits 0 to 2 of `GPFSEL1` at `000`;
every other bit of that register and the whole other register keep their values. -/
theorem init_GPIO_field_only (s : GpioState) (h0 : s.gpfsel0 < 2 ^ 32)
    (h1 : s.gpfsel1 < 2 ^ 32) :
    (∀ i, (init_GPIO9_to_output s).gpfsel0.testBit i
        = if i = 27 then true else if 27 < i ∧ i < 30 then false else s.gpfsel0.testBit i)
    ∧ (init_GPIO9_to_output s).gpfsel1 = s.gpfsel1
    ∧ (∀ i, (init_GPIO11_to_output s).gpfsel1.testBit i
        = if i = 3 then true else if 3 < i ∧ i < 6 then false else s.gpfsel1.testBit i)
    ∧ (init_GPIO11_to_output s).gpfsel0 = s.gpfsel0
    ∧ (∀ i, (init_GPIO10_to_input s).gpfsel1.testBit i
        = if i < 3 then false else s.gpfsel1.testBit i)
    ∧ (init_GPIO10_to_input s).gpfsel0 = s.gpfsel0 := by
  refine ⟨?_, ?_, ?_, ?_, ?_, ?_⟩
  · intro i
    rw [init_GPIO9_to_output_spec]
    exact fsel_update_testBit s.gpfsel0 27 i true h0 (by norm_num)
  · rw [init_GPIO9_to_output_spec]
  · intro i
    rw [init_GPIO11_to_output_spec]
    exact fsel_update_testBit s.gpfsel1 3 i true h1 (by norm_num)
  · rw [init_GPIO11_to_output_spec]
  · intro i
    rw [init_GPIO10_to_input_spec]
    have h := fsel_update_testBit s.gpfsel1 0 i false h1 (by norm_num)
    simp only [Bool.false_eq_true, if_false, Nat.or_zero] at h
    show (s.gpfsel1 &&& not32 (0x7 <<< 0)).testBit i = _
    rw [h]
    by_cases e : i = 0
    · simp [e]
    · by_cases e3 : i < 3
      · have : 0 < i ∧ i < 0 + 3 := by omega
        simp [e, e3, this]
      · have : ¬ (0 < i ∧ i < 0 + 3) := by omega
        simp [e, e3, this]
  · rw [init_GPIO10_to_input_spec]

/-- Witness of `init_GPIO_field_only`: both function select registers hold
`0x3FFFFFFF` (every field `111`) before the call. -/
theorem init_GPIO_field_only_witness :
    (∀ i, (init_GPIO9_to_output busyPad).gpfsel0.testBit i
        = if i = 27 then true else if 27 < i ∧ i < 30 then false
          else busyPad.gpfsel0.testBit i)
    ∧ (init_GPIO9_to_output busyPad).gpfsel1 = busyPad.gpfsel1
    ∧ (∀ i, (init_GPIO11_to_output busyPad).gpfsel1.testBit i
        = if i = 3 then true else if 3 < i ∧ i < 6 then false
          else busyPad.gpfsel1.testBit i)
    ∧ (init_GPIO11_to_output busyPad).gpfsel0 = busyPad.gpfsel0
    ∧ (∀ i, (init_GPIO10_to_input busyPad).gpfsel1.testBit i
        = if i < 3 then false else busyPad.gpfsel1.testBit i)
    ∧ (init_GPIO10_to_input busyPad).gpfsel0 = busyPad.gpfsel0 :=
  init_GPIO_field_only busyPad (by decide) (by decide)

/-- C17: each pin configuration routine is idempotent on the configuration registers:
run twice it leaves the function select, pull-control and pull-clock registers as it
leaves them when run once; and the value it gives the pin's function select field (1 for
the two output pins, 0 for the input pin) is the same for every prior state. -/
theorem init_GPIO_idempotent (s : GpioState) :
    regsOf (init_GPIO9_to_output (init_GPIO9_to_output s)) = regsOf (init_GPIO9_to_output s)
    ∧ regsOf (init_GPIO11_to_output (init_GPIO11_to_output s))
        = regsOf (init_GPIO11_to_output s)
    ∧ regsOf (init_GPIO10_to_input (init_GPIO10_to_input s))
        = regsOf (init_GPIO10_to_input s)
    ∧ ((init_GPIO9_to_output s).gpfsel0 >>> 27) &&& 0x7 = 1
    ∧ ((init_GPIO11_to_output s).gpfsel1 >>> 3) &&& 0x7 = 1
    ∧ ((init_GPIO10_to_input s).gpfsel1 >>> 0) &&& 0x7 = 0 := by
  refine ⟨?_, ?_, ?_, ?_, ?_, ?_⟩
  · simp only [init_GPIO9_to_output_spec, regsOf, and_or_idem]
  · simp only [init_GPIO11_to_output_spec, regsOf, and_or_idem]
  · simp only [init_GPIO10_to_input_spec, regsOf, and_and_idem]
  · rw [init_GPIO9_to_output_spec]
    exact fsel_field_value s.gpfsel0 27 true (by norm_num)
  · rw [init_GPIO11_to_output_spec]
    exact fsel_field_value s.gpfsel1 3 true (by norm_num)
  · rw [init_GPIO10_to_input_spec]
    have h := fsel_field_value s.gpfsel1 0 false (by norm_num)
    simp only [Bool.false_eq_true, if_false, Nat.or_zero] at h
    exact h

/-! ### Lemmas on the transmitted bytes -/

theorem crlf_eq_expandLF : ∀ mem : List Nat, crlf mem = expandLF (cString mem) := by
  intro mem
  induction mem with
  | nil => rfl
  | cons c cs ih =>
    by_cases h0 : c = 0
    · simp [crlf, cString, expandLF, h0]
    · by_cases hn : c = 0x0A
      · subst hn
        simp only [cString, expandLF] at ih ⊢
        simp [crlf, ih]
      · simp only [cString, expandLF] at ih ⊢
        simp [crlf, h0, hn, ih]

theorem crlf_append (p q : List Nat) (hp : ∀ c ∈ p, c ≠ 0) :
    crlf (p ++ q) = expandLF p ++ crlf q := by
  induction p with
  | nil => rfl
  | cons c cs ih =>
    have h0 : c ≠ 0 := hp c (List.mem_cons_self _ _)
    have ih' := ih (fun x hx => hp x (List.mem_cons_of_mem _ hx))
    by_cases hn : c = 0x0A
    · subst hn
      simp only [expandLF] at ih' ⊢
      simp [crlf, ih']
    · simp only [expandLF] at ih' ⊢
      simp [crlf, h0, hn, ih']

theorem expandLF_length : ∀ l : List Nat,
    (expandLF l).length = l.length + l.count 0x0A := by
  intro l
  induction l with
  | nil => rfl
  | cons c cs ih =>
    simp only [expandLF] at ih ⊢
    by_cases hn : c = 0x0A
    · subst hn
      simp [ih]
      omega
    · simp [hn, ih, List.count_cons]
      omega

theorem expandLF_lf_after_cr : ∀ (l pre post : List Nat),
    expandLF l = pre ++ 0x0A :: post → ∃ pre', pre = pre' ++ [0x0D] := by
  intro l
  induction l with
  | nil => intro pre post h; simp [expandLF] at h
  | cons c cs ih =>
    intro pre post h
    have hc : expandLF (c :: cs) = (if c = 0x0A then [0x0D, 0x0A] else [c]) ++ expandLF cs := by
      simp [expandLF]
    rw [hc] at h
    by_cases hn : c = 0x0A
    · rw [if_pos hn] at h
      cases pre with
      | nil => simp at h
      | cons a pre1 =>
        cases pre1 with
        | nil => simp at h; exact ⟨[], by simp [h.1]⟩
        | cons b pre2 =>
          simp only [List.cons_append, List.nil_append, List.cons.injEq] at h
          obtain ⟨pre', hp⟩ := ih pre2 post h.2.2
          exact ⟨a :: b :: pre', by rw [hp]; rfl⟩
    · rw [if_neg hn] at h
      cases pre with
      | nil =>
        simp only [List.cons_append, List.nil_append, List.cons.injEq] at h
        exact absurd h.1 hn
      | cons a pre1 =>
        simp only [List.cons_append, List.nil_append, List.cons.injEq] at h
        obtain ⟨pre', hp⟩ := ih pre1 post h.2
        exact ⟨a :: pre', by rw [hp]; rfl⟩

theorem hexDigit_eq_asciiHex (v i : Nat) : hexDigit v i = asciiHex ((v >>> i) &&& 0xF) := by
  have key : ∀ d, d < 16 → (if d > 9 then d + 0x37 else d + 0x30) = asciiHex d := by decide
  have hd : (v >>> i) &&& 0xF < 16 := by
    have := Nat.and_pow_two_sub_one_eq_mod (v >>> i) 4
    norm_num at this
    rw [this]
    exact Nat.mod_lt _ (by norm_num)
  exact key _ hd

theorem hexValue_asciiHex : ∀ d, d < 16 → hexValue (asciiHex d) = some d := by decide

theorem nibble_eq (v i : Nat) : (v >>> i) &&& 0xF = v / 2 ^ i % 16 := by
  have := Nat.and_pow_two_sub_one_eq_mod (v >>> i) 4
  norm_num at this
  rw [this, Nat.shiftRight_eq_div_pow]

theorem parseHex_hexDigits (v : Nat) (hv : v < 2 ^ 32) : parseHex (hexDigits v) = some v := by
  have hlt : ∀ i, v / 2 ^ i % 16 < 16 := fun i => Nat.mod_lt _ (by norm_num)
  simp only [parseHex, hexDigits, parseHexFrom, hexDigit_eq_asciiHex, nibble_eq,
    hexValue_asciiHex _ (hlt _), Option.some.injEq]
  norm_num at hv ⊢
  omega

/-! ### Claims on `uart_puts` and `uart_puthex` -/

/-- C18: for every string `mem` (ended by its first zero byte), when the transmitter
becomes ready often enough, `uart_puts` transmits the bytes of the string before the
first zero with every line feed replaced by carriage return, line feed and every other
byte as it is, in order; so every line feed of the output comes right after a carriage
return, the output is as long as the string plus its number of line feeds, and `a`, line
feed, `b` gives `a`, CR, LF, `b`. -/
theorem uart_puts_line_discipline (mem : List Nat) (u : UartState)
    (h : (cString mem).length + (cString mem).count 0x0A ≤ txReady u.lsr) :
    ∃ u', uart_puts mem u = some u'
      ∧ u'.out = u.out ++ expandLF (cString mem)
      ∧ (∀ pre post, expandLF (cString mem) = pre ++ 0x0A :: post →
          ∃ pre', pre = pre' ++ [0x0D])
      ∧ (expandLF (cString mem)).length = (cString mem).length + (cString mem).count 0x0A
      ∧ expandLF (cString (cstr "a\nb")) = [0x61, 0x0D, 0x0A, 0x62] := by
  have hl := expandLF_length (cString mem)
  obtain ⟨u', h1, h2, _⟩ := uart_puts_spec mem u (by rw [crlf_eq_expandLF, hl]; exact h)
  exact ⟨u', h1, by rw [h2, crlf_eq_expandLF], expandLF_lf_after_cr _, hl, by decide⟩

/-- Witness of `uart_puts_line_discipline`: the string `a`, line feed, `b` with further
bytes after its terminating zero. -/
theorem uart_puts_line_discipline_witness :
    ∃ u', uart_puts [0x61, 0x0A, 0x62, 0, 0x63] (readyUart 4) = some u'
      ∧ u'.out = (readyUart 4).out ++ expandLF (cString [0x61, 0x0A, 0x62, 0, 0x63])
      ∧ (∀ pre post, expandLF (cString [0x61, 0x0A, 0x62, 0, 0x63]) = pre ++ 0x0A :: post →
          ∃ pre', pre = pre' ++ [0x0D])
      ∧ (expandLF (cString [0x61, 0x0A, 0x62, 0, 0x63])).length
          = (cString [0x61, 0x0A, 0x62, 0, 0x63]).length
            + (cString [0x61, 0x0A, 0x62, 0, 0x63]).count 0x0A
      ∧ expandLF (cString (cstr "a\nb")) = [0x61, 0x0D, 0x0A, 0x62] :=
  uart_puts_line_discipline [0x61, 0x0A, 0x62, 0, 0x63] (readyUart 4) (by decide)

/-- C19, as stated, fails: for the string `a`, CR, LF, `b` the function `uart_puts`
transmits `a`, CR, CR, LF, `b`: a second carriage return before the line feed, and two
carriage returns in a row where the string has only one. -/
theorem uart_puts_cr_duplicated_counterexample :
    (uart_puts (cstr "a\r\nb") (readyUart 5)).map (fun u => u.out)
      = some [0x61, 0x0D, 0x0D, 0x0A, 0x62]
    ∧ cstr "a\r\nb" = [0x61, 0x0D, 0x0A, 0x62] := by
  decide

/-- C19, amended: for every string in which a line feed comes right after a carriage
return (the bytes `p` before them free of zero), `uart_puts` puts one more carriage
return before that line feed, so the output has two carriage returns in a row there:
`p`, CR, LF, `q` is sent as `p` expanded, CR, CR, LF, `q` expanded. -/
theorem uart_puts_cr_duplicated (p q : List Nat) (u : UartState)
    (hp : ∀ c ∈ p, c ≠ 0)
    (h : (expandLF p).length + 3 + (expandLF (cString q)).length ≤ txReady u.lsr) :
    ∃ u', uart_puts (p ++ [0x0D, 0x0A] ++ q) u = some u'
      ∧ u'.out = u.out ++ (expandLF p ++ [0x0D, 0x0D, 0x0A] ++ expandLF (cString q)) := by
  have e : crlf (p ++ [0x0D, 0x0A] ++ q)
      = expandLF p ++ [0x0D, 0x0D, 0x0A] ++ expandLF (cString q) := by
    rw [List.append_assoc, crlf_append p _ hp]
    simp [crlf, crlf_eq_expandLF]
  obtain ⟨u', h1, h2, _⟩ := uart_puts_spec (p ++ [0x0D, 0x0A] ++ q) u
    (by rw [e]; simp only [List.length_append, List.length_cons, List.length_nil]; omega)
  exact ⟨u', h1, by rw [h2, e]⟩

/-- Witness of `uart_puts_cr_duplicated`: the string `a`, CR, LF, `b`. -/
theorem uart_puts_cr_duplicated_witness :
    ∃ u', uart_puts ([0x61] ++ [0x0D, 0x0A] ++ [0x62]) (readyUart 5) = some u'
      ∧ u'.out = (readyUart 5).out
          ++ (expandLF [0x61] ++ [0x0D, 0x0D, 0x0A] ++ expandLF (cString [0x62])) :=
  uart_puts_cr_duplicated [0x61] [0x62] (readyUart 5) (by decide) (by decide)

/-- C20: for every 32-bit value `v`, when the transmitter becomes ready eight times,
`uart_puthex` transmits exactly 8 bytes and nothing before them; byte `k` is the ASCII
character `0`-`9` or `A`-`F` of the nibble `(v >> (28 - 4k)) & 0xF`; read as a base-16
numeral the 8 bytes give `v` back; and 0, `0xFFFFFFFF` and `0x1A2B3C4D` give `00000000`,
`FFFFFFFF` and `1A2B3C4D`. -/
theorem uart_puthex_digits (v : Nat) (u : UartState) (hv : v < 2 ^ 32)
    (h : 8 ≤ txReady u.lsr) :
    ∃ u', uart_puthex v u = some u'
      ∧ u'.out = u.out ++ hexDigits v
      ∧ (hexDigits v).length = 8
      ∧ (∀ k, k < 8 → (hexDigits v).getD k 0 = asciiHex ((v >>> (28 - 4 * k)) &&& 0xF))
      ∧ (∀ d, d < 16 → asciiHex d = if d < 10 then 0x30 + d else 0x41 + (d - 10))
      ∧ parseHex (hexDigits v) = some v
      ∧ hexDigits 0 = cstr "00000000"
      ∧ hexDigits 0xFFFFFFFF = cstr "FFFFFFFF"
      ∧ hexDigits 0x1A2B3C4D = cstr "1A2B3C4D" := by
  obtain ⟨u', h1, h2, _⟩ := uart_puthex_spec v u h
  refine ⟨u', h1, h2, rfl, ?_, by decide, parseHex_hexDigits v hv, by decide, by decide,
    by decide⟩
  intro k hk
  interval_cases k <;> simp [hexDigits, hexDigit_eq_asciiHex]

/-- Witness of `uart_puthex_digits`: the value `0x1A2B3C4D`. -/
theorem uart_puthex_digits_witness :
    ∃ u', uart_puthex 0x1A2B3C4D (readyUart 8) = some u'
      ∧ u'.out = (readyUart 8).out ++ hexDigits 0x1A2B3C4D
      ∧ (hexDigits 0x1A2B3C4D).length = 8
      ∧ (∀ k, k < 8 →
          (hexDigits 0x1A2B3C4D).getD k 0 = asciiHex ((0x1A2B3C4D >>> (28 - 4 * k)) &&& 0xF))
      ∧ (∀ d, d < 16 → asciiHex d = if d < 10 then 0x30 + d else 0x41 + (d - 10))
      ∧ parseHex (hexDigits 0x1A2B3C4D) = some 0x1A2B3C4D
      ∧ hexDigits 0 = cstr "00000000"
      ∧ hexDigits 0xFFFFFFFF = cstr "FFFFFFFF"
      ∧ hexDigits 0x1A2B3C4D = cstr "1A2B3C4D" :=
  uart_puthex_digits 0x1A2B3C4D (readyUart 8) (by norm_num) (by decide)

/-! ### Claims on `uart_getc` and `uart_init` -/

theorem waitReceiver_spec (pre : List Nat) (v : Nat) (rest : List Nat)
    (hpre : ∀ x ∈ pre, x &&& 0x1 = 0) (hv : v &&& 0x1 ≠ 0) :
    waitReceiver (pre ++ v :: rest)
      = some (pre.map RxEvent.readLSR ++ [RxEvent.readLSR v], rest) := by
  induction pre with
  | nil => rw [List.nil_append, waitReceiver, if_neg hv]; rfl
  | cons x pre ih =>
    have hx : x &&& 0x1 = 0 := hpre x (List.mem_cons_self _ _)
    have ih' := ih (fun y hy => hpre y (List.mem_cons_of_mem _ hy))
    rw [List.cons_append, waitReceiver, if_pos hx, ih']
    rfl

/-- C21: when the line status eventually shows data ready (bit 0 set in the reading `v`,
after the readings `pre` without it) and the I/O register then returns `x`, the function
`uart_getc` returns; its accesses are the status reads up to `v` and then one single read
of the I/O register; it returns line feed when the low 8 bits of `x` are carriage return
and these low 8 bits otherwise, so it never returns `0x0D`. -/
theorem uart_getc_normalises (u : UartRx) (pre : List Nat) (v : Nat) (rest : List Nat)
    (x : Nat) (ios : List Nat)
    (hl : u.lsr = pre ++ v :: rest)
    (hpre : ∀ y ∈ pre, y &&& 0x1 = 0) (hv : v &&& 0x1 ≠ 0)
    (hio : u.io = x :: ios) :
    ∃ c u', uart_getc u = some (c, u')
      ∧ u'.trace = u.trace ++ pre.map RxEvent.readLSR
          ++ [RxEvent.readLSR v, RxEvent.readIO x]
      ∧ u'.io = ios ∧ u'.lsr = rest
      ∧ (x % 2 ^ 8 = 0x0D → c = 0x0A)
      ∧ (x % 2 ^ 8 ≠ 0x0D → c = x % 2 ^ 8)
      ∧ c ≠ 0x0D ∧ c < 2 ^ 8 := by
  refine ⟨if x % 2 ^ 8 = 0x0D then 0x0A else x % 2 ^ 8,
    { lsr := rest, io := ios,
      trace := u.trace ++ (pre.map RxEvent.readLSR ++ [RxEvent.readLSR v])
        ++ [RxEvent.readIO x] }, ?_, ?_, rfl, rfl, ?_, ?_, ?_, ?_⟩
  · unfold uart_getc
    rw [hl, waitReceiver_spec pre v rest hpre hv, hio]
  · simp
  · intro h; rw [if_pos h]
  · intro h; rw [if_neg h]
  · by_cases h : x % 2 ^ 8 = 0x0D
    · rw [if_pos h]; decide
    · rw [if_neg h]; exact h
  · have hlt : x % 2 ^ 8 < 2 ^ 8 := Nat.mod_lt _ (by norm_num)
    by_cases h : x % 2 ^ 8 = 0x0D
    · rw [if_pos h]; norm_num
    · rw [if_neg h]; exact hlt

/-- Witness of `uart_getc_normalises`: the receiver is not ready once, then holds a
carriage return. -/
theorem uart_getc_normalises_witness :
    ∃ c u', uart_getc { lsr := [0x20, 0x21, 0x21], io := [0x0D, 0x41], trace := [] }
        = some (c, u')
      ∧ u'.trace = [] ++ [0x20].map RxEvent.readLSR
          ++ [RxEvent.readLSR 0x21, RxEvent.readIO 0x0D]
      ∧ u'.io = [0x41] ∧ u'.lsr = [0x21]
      ∧ (0x0D % 2 ^ 8 = 0x0D → c = 0x0A)
      ∧ (0x0D % 2 ^ 8 ≠ 0x0D → c = 0x0D % 2 ^ 8)
      ∧ c ≠ 0x0D ∧ c < 2 ^ 8 :=
  uart_getc_normalises { lsr := [0x20, 0x21, 0x21], io := [0x0D, 0x41], trace := [] }
    [0x20] 0x21 [0x21] 0x0D [0x41] rfl (by decide) (by decide) rfl

theorem initNops_spec : ∀ (n : Nat) (s : InitState),
    initNops n s
      = { gpfsel1 := s.gpfsel1, aux_enable := s.aux_enable,
          trace := s.trace ++ List.replicate n InitEvent.nop } := by
  intro n
  induction n with
  | zero => intro s; simp [initNops]
  | succ n ih =>
    intro s
    rw [initNops, ih]
    simp [List.replicate_succ]

theorem initWrites_append (a b : List InitEvent) :
    initWrites (a ++ b) = initWrites a ++ initWrites b := by
  induction a with
  | nil => rfl
  | cons e a ih => cases e <;> simp [initWrites, ih]

theorem initWrites_nops (n : Nat) : initWrites (List.replicate n InitEvent.nop) = [] := by
  induction n with
  | zero => rfl
  | succ n ih => simp [List.replicate_succ, initWrites, ih]

theorem uart_init_spec (s : InitState) :
    uart_init s
      = { gpfsel1 := (s.gpfsel1 &&& not32 ((0x7 <<< 12) ||| (0x7 <<< 15)))
            ||| ((0x2 <<< 12) ||| (0x2 <<< 15)),
          aux_enable := s.aux_enable ||| 0x1,
          trace := s.trace ++
            ([InitEvent.read AuxReg.GPFSEL1 s.gpfsel1,
              InitEvent.write AuxReg.GPFSEL1
                ((s.gpfsel1 &&& not32 ((0x7 <<< 12) ||| (0x7 <<< 15)))
                  ||| ((0x2 <<< 12) ||| (0x2 <<< 15))),
              InitEvent.write AuxReg.GPPUD 0]
            ++ List.replicate 150 InitEvent.nop
            ++ [InitEvent.write AuxReg.GPPUDCLK0 ((0x1 <<< 14) ||| (0x1 <<< 15))]
            ++ List.replicate 150 InitEvent.nop
            ++ [InitEvent.write AuxReg.GPPUDCLK0 0]
            ++ [InitEvent.read AuxReg.AUX_ENABLE s.aux_enable,
                InitEvent.write AuxReg.AUX_ENABLE (s.aux_enable ||| 0x1),
                InitEvent.write AuxReg.AUX_MU_IER 0,
                InitEvent.write AuxReg.AUX_MU_CNTL 0,
                InitEvent.write AuxReg.AUX_MU_LCR 0x3,
                InitEvent.write AuxReg.AUX_MU_MCR 0,
                InitEvent.write AuxReg.AUX_MU_IIR 0xc6,
                InitEvent.write AuxReg.AUX_MU_BAUD 270,
                InitEvent.write AuxReg.AUX_MU_CNTL 0x3]) } := by
  simp only [uart_init, initWrite, initRead, initNops_spec, List.append_assoc,
    List.cons_append, List.nil_append]

/-- C22: for every prior register state, what `uart_init` does after the pull-disable
sequence on the GPIO registers is exactly: read the auxiliary enable register, write it
back with bit 0 set and the other bits kept, then interrupt enable <- 0, control <- 0,
line control <- 3, modem control <- 0, FIFO control <- `0xC6`, baud divisor <- 270,
control <- 3; so the control register holds 0 from its first write until the last write
of all, which comes after the baud divisor is set. -/
theorem uart_init_write_order (s : InitState) :
    (uart_init s).trace
      = s.trace ++
        ([InitEvent.read AuxReg.GPFSEL1 s.gpfsel1,
          InitEvent.write AuxReg.GPFSEL1 (uart_init s).gpfsel1,
          InitEvent.write AuxReg.GPPUD 0]
        ++ List.replicate 150 InitEvent.nop
        ++ [InitEvent.write AuxReg.GPPUDCLK0 ((0x1 <<< 14) ||| (0x1 <<< 15))]
        ++ List.replicate 150 InitEvent.nop
        ++ [InitEvent.write AuxReg.GPPUDCLK0 0])
        ++ [InitEvent.read AuxReg.AUX_ENABLE s.aux_enable,
            InitEvent.write AuxReg.AUX_ENABLE (s.aux_enable ||| 0x1),
            InitEvent.write AuxReg.AUX_MU_IER 0,
            InitEvent.write AuxReg.AUX_MU_CNTL 0,
            InitEvent.write AuxReg.AUX_MU_LCR 3,
            InitEvent.write AuxReg.AUX_MU_MCR 0,
            InitEvent.write AuxReg.AUX_MU_IIR 0xC6,
            InitEvent.write AuxReg.AUX_MU_BAUD 270,
            InitEvent.write AuxReg.AUX_MU_CNTL 3]
    ∧ initWrites (uart_init (clearTrace s)).trace
      = [(AuxReg.GPFSEL1, (uart_init s).gpfsel1), (AuxReg.GPPUD, 0),
         (AuxReg.GPPUDCLK0, (0x1 <<< 14) ||| (0x1 <<< 15)), (AuxReg.GPPUDCLK0, 0),
         (AuxReg.AUX_ENABLE, s.aux_enable ||| 0x1), (AuxReg.AUX_MU_IER, 0),
         (AuxReg.AUX_MU_CNTL, 0), (AuxReg.AUX_MU_LCR, 3), (AuxReg.AUX_MU_MCR, 0),
         (AuxReg.AUX_MU_IIR, 0xC6), (AuxReg.AUX_MU_BAUD, 270), (AuxReg.AUX_MU_CNTL, 3)]
    ∧ (uart_init s).trace.getLast? = some (InitEvent.write AuxReg.AUX_MU_CNTL 3)
    ∧ (s.aux_enable ||| 0x1).testBit 0 = true
    ∧ (∀ i, i ≠ 0 → (s.aux_enable ||| 0x1).testBit i = s.aux_enable.testBit i)
    ∧ (uart_init s).aux_enable = s.aux_enable ||| 0x1 := by
  refine ⟨?_, ?_, ?_, ?_, ?_, ?_⟩
  · rw [uart_init_spec]
    simp only [List.append_assoc, List.cons_append, List.nil_append]
  · rw [uart_init_spec, uart_init_spec]
    simp only [clearTrace, List.nil_append, initWrites_append, initWrites_nops, initWrites,
      List.append_nil, List.cons_append]
  · rw [uart_init_spec]
    simp only [← List.append_assoc]
    rw [List.getLast?_append]
    rfl
  · rw [Nat.testBit_or]
    simp
  · intro i hi
    rw [Nat.testBit_or]
    have : Nat.testBit 1 i = false := by
      rw [show (1 : Nat) = 2 ^ 0 by rfl, Nat.testBit_two_pow]
      simp; omega
    rw [this, Bool.or_false]
  · rw [uart_init_spec]

/-! ### Lemmas on `drawSquare` -/

theorem pixelIndex_nat (r c w : Nat) (hr : r < 2 ^ 32) (hc : c < 2 ^ 32)
    (h : r * w + c < 2 ^ 32) : pixelIndex (r : Int) (c : Int) w = r * w + c := by
  unfold pixelIndex
  have e1 : ((r : Int) % 2 ^ 32).toNat = r := by
    rw [Int.emod_eq_of_lt (by omega) (by exact_mod_cast hr)]
    simp
  have e2 : ((c : Int) % 2 ^ 32).toNat = c := by
    rw [Int.emod_eq_of_lt (by omega) (by exact_mod_cast hc)]
    simp
  rw [e1, e2, Nat.mod_eq_of_lt h]

theorem columnLoop_spec (color w r : Nat) (hr : r < 2 ^ 32) :
    ∀ (n c : Nat) (px : Nat → Nat), r * w + (c + n) ≤ 2 ^ 32 →
      ∀ i, columnLoop color w (r : Int) n (c : Int) px i
        = if r * w + c ≤ i ∧ i < r * w + c + n then color else px i := by
  intro n
  induction n with
  | zero =>
    intro c px _ i
    have : ¬ (r * w + c ≤ i ∧ i < r * w + c + 0) := by omega
    rw [if_neg this]
    rfl
  | succ n ih =>
    intro c px hb i
    have hidx : pixelIndex (r : Int) (c : Int) w = r * w + c :=
      pixelIndex_nat r c w hr (by omega) (by omega)
    have hc : ((c : Int) + 1) = ((c + 1 : Nat) : Int) := by push_cast; rfl
    rw [columnLoop, hidx, hc, ih (c + 1) _ (by omega) i]
    unfold storeWord
    by_cases h1 : i = r * w + c
    · subst h1
      have a : ¬ (r * w + (c + 1) ≤ r * w + c ∧ r * w + c < r * w + (c + 1) + n) := by omega
      have b : r * w + c ≤ r * w + c ∧ r * w + c < r * w + c + (n + 1) := by omega
      rw [if_neg a, if_pos rfl, if_pos b]
    · by_cases h2 : r * w + (c + 1) ≤ i ∧ i < r * w + (c + 1) + n
      · have b : r * w + c ≤ i ∧ i < r * w + c + (n + 1) := by omega
        rw [if_pos h2, if_pos b]
      · have b : ¬ (r * w + c ≤ i ∧ i < r * w + c + (n + 1)) := by omega
        rw [if_neg h2, if_neg h1, if_neg b]

theorem rowLoop_spec (color w c0 n : Nat) (cEnd : Int) (hn : (cEnd - (c0 : Int)).toNat = n) :
    ∀ (m r : Nat) (px : Nat → Nat), r + m ≤ 2 ^ 32 →
      (m = 0 ∨ (r + m - 1) * w + (c0 + n) ≤ 2 ^ 32) →
      ∀ i,
        ((∃ row, r ≤ row ∧ row < r + m ∧ row * w + c0 ≤ i ∧ i < row * w + c0 + n) →
          rowLoop color w (c0 : Int) cEnd m (r : Int) px i = color)
        ∧ ((¬ ∃ row, r ≤ row ∧ row < r + m ∧ row * w + c0 ≤ i ∧ i < row * w + c0 + n) →
          rowLoop color w (c0 : Int) cEnd m (r : Int) px i = px i) := by
  intro m
  induction m with
  | zero =>
    intro r px _ _ i
    refine ⟨?_, fun _ => rfl⟩
    rintro ⟨row, h1, h2, _⟩
    omega
  | succ m ih =>
    intro r px hr hb i
    have hb' : (r + m) * w + (c0 + n) ≤ 2 ^ 32 := by
      rcases hb with h | h
      · omega
      · simpa using h
    have hmono : r * w ≤ (r + m) * w := Nat.mul_le_mul_right w (by omega)
    have hr1 : ((r : Int) + 1) = ((r + 1 : Nat) : Int) := by push_cast; rfl
    have hcol := columnLoop_spec color w r (by omega) n c0 px (by omega) i
    have ih' := ih (r + 1) (columnLoop color w (r : Int) n (c0 : Int) px) (by omega)
      (by rcases Nat.eq_zero_or_pos m with h | h
          · exact Or.inl h
          · right
            rw [show r + 1 + m - 1 = r + m by omega]
            exact hb') i
    rw [rowLoop, hn, hr1]
    by_cases h2 : ∃ row, r + 1 ≤ row ∧ row < r + 1 + m ∧ row * w + c0 ≤ i
        ∧ i < row * w + c0 + n
    · refine ⟨fun _ => ih'.1 h2, fun hno => ?_⟩
      obtain ⟨row, a1, a2, a3, a4⟩ := h2
      exact absurd ⟨row, by omega, by omega, a3, a4⟩ hno
    · rw [ih'.2 h2, hcol]
      by_cases h1 : r * w + c0 ≤ i ∧ i < r * w + c0 + n
      · rw [if_pos h1]
        refine ⟨fun _ => rfl, fun hno => ?_⟩
        exact absurd ⟨r, le_refl _, by omega, h1.1, h1.2⟩ hno
      · rw [if_neg h1]
        refine ⟨fun hex => ?_, fun _ => rfl⟩
        obtain ⟨row, a1, a2, a3, a4⟩ := hex
        by_cases e : row = r
        · subst e; exact absurd ⟨a3, a4⟩ h1
        · exact absurd ⟨row, by omega, by omega, a3, a4⟩ h2

/-! ### Claim on `drawSquare` -/

/-- C23: for non-negative `rowStart` and `columnStart` and every `squareSize`, colour and
frame buffer width, with no overflow in the `int` sums and in the index, after
`drawSquare` the pixel at index `row * width + column` is the colour for every
`rowStart <= row < rowStart + squareSize` and
`columnStart <= column < columnStart + squareSize`, every index that is not of this form
holds the value it had, the width is unchanged, and for `squareSize <= 0` no pixel
changes. -/
theorem drawSquare_frame (rowStart columnStart squareSize : Int) (color : Nat) (fb : FrameBuf)
    (h0r : 0 ≤ rowStart) (h0c : 0 ≤ columnStart)
    (hr : rowStart + squareSize < 2 ^ 31) (hc : columnStart + squareSize < 2 ^ 31)
    (hidx : 0 < squareSize →
      (rowStart + squareSize) * fb.frameBufferWidth + (columnStart + squareSize) ≤ 2 ^ 32) :
    (drawSquare rowStart columnStart squareSize color fb).frameBufferWidth
      = fb.frameBufferWidth
    ∧ (∀ row col : Nat, rowStart ≤ row → (row : Int) < rowStart + squareSize →
        columnStart ≤ col → (col : Int) < columnStart + squareSize →
        (drawSquare rowStart columnStart squareSize color fb).pixel
          (row * fb.frameBufferWidth + col) = color)
    ∧ (∀ i, (¬ ∃ row col : Nat, rowStart ≤ row ∧ (row : Int) < rowStart + squareSize
          ∧ columnStart ≤ col ∧ (col : Int) < columnStart + squareSize
          ∧ i = row * fb.frameBufferWidth + col) →
        (drawSquare rowStart columnStart squareSize color fb).pixel i = fb.pixel i)
    ∧ (squareSize ≤ 0 →
        ∀ i, (drawSquare rowStart columnStart squareSize color fb).pixel i = fb.pixel i) := by
  obtain ⟨r0, rfl⟩ := Int.eq_ofNat_of_zero_le h0r
  obtain ⟨c0, rfl⟩ := Int.eq_ofNat_of_zero_le h0c
  have hzero : squareSize ≤ 0 →
      ∀ i, (drawSquare r0 c0 squareSize color fb).pixel i = fb.pixel i := by
    intro hs i
    have e : ((r0 : Int) + squareSize - r0).toNat = 0 := by omega
    simp only [drawSquare, e, rowLoop]
  refine ⟨rfl, ?_, ?_, hzero⟩
  · intro row col a1 a2 a3 a4
    have hpos : 0 < squareSize := by omega
    obtain ⟨n, rfl⟩ := Int.eq_ofNat_of_zero_le (le_of_lt hpos)
    have hb : (r0 + n) * fb.frameBufferWidth + (c0 + n) ≤ 2 ^ 32 := by
      exact_mod_cast hidx hpos
    have hmono : (r0 + n - 1) * fb.frameBufferWidth ≤ (r0 + n) * fb.frameBufferWidth :=
      Nat.mul_le_mul_right _ (by omega)
    have e : ((r0 : Int) + (n : Int) - r0).toNat = n := by omega
    have key := (rowLoop_spec color fb.frameBufferWidth c0 n ((c0 : Int) + (n : Int))
      (by omega) n r0 fb.pixel (by omega) (Or.inr (by omega))
      (row * fb.frameBufferWidth + col)).1
      ⟨row, by omega, by omega, by omega, by omega⟩
    simp only [drawSquare, e]
    exact key
  · intro i hno
    by_cases hs : squareSize ≤ 0
    · exact hzero hs i
    · have hpos : 0 < squareSize := by omega
      obtain ⟨n, rfl⟩ := Int.eq_ofNat_of_zero_le (le_of_lt hpos)
      have hb : (r0 + n) * fb.frameBufferWidth + (c0 + n) ≤ 2 ^ 32 := by
        exact_mod_cast hidx hpos
      have hmono : (r0 + n - 1) * fb.frameBufferWidth ≤ (r0 + n) * fb.frameBufferWidth :=
        Nat.mul_le_mul_right _ (by omega)
      have e : ((r0 : Int) + (n : Int) - r0).toNat = n := by omega
      have key := (rowLoop_spec color fb.frameBufferWidth c0 n ((c0 : Int) + (n : Int))
        (by omega) n r0 fb.pixel (by omega) (Or.inr (by omega)) i).2
        (by
          rintro ⟨row, b1, b2, b3, b4⟩
          apply hno
          refine ⟨row, i - row * fb.frameBufferWidth, by omega, by omega, by omega, by omega,
            by omega⟩)
      simp only [drawSquare, e]
      exact key

/-- Witness of `drawSquare_frame`: a 2 by 2 square at row 1, column 2 of a frame buffer
4 pixels wide. -/
theorem drawSquare_frame_witness :
    (drawSquare 1 2 2 0xFF0000 blankFrame).frameBufferWidth = blankFrame.frameBufferWidth
    ∧ (∀ row col : Nat, (1 : Int) ≤ row → (row : Int) < 1 + 2 →
        (2 : Int) ≤ col → (col : Int) < 2 + 2 →
        (drawSquare 1 2 2 0xFF0000 blankFrame).pixel
          (row * blankFrame.frameBufferWidth + col) = 0xFF0000)
    ∧ (∀ i, (¬ ∃ row col : Nat, (1 : Int) ≤ row ∧ (row : Int) < 1 + 2
          ∧ (2 : Int) ≤ col ∧ (col : Int) < 2 + 2
          ∧ i = row * blankFrame.frameBufferWidth + col) →
        (drawSquare 1 2 2 0xFF0000 blankFrame).pixel i = blankFrame.pixel i)
    ∧ ((2 : Int) ≤ 0 →
        ∀ i, (drawSquare 1 2 2 0xFF0000 blankFrame).pixel i = blankFrame.pixel i) :=
  drawSquare_frame 1 2 2 0xFF0000 blankFrame (by norm_num) (by norm_num) (by norm_num)
    (by norm_num) (by intro _; simp [blankFrame])

/-! ### Lemmas on the loop of `main` -/

theorem maze_cells : ∀ b, b < 12 → ∀ a, a < 16 →
    (maze.getD b []).getD a 0 = 0 ∨ (maze.getD b []).getD a 0 = 1
      ∨ (maze.getD b []).getD a 0 = 2 ∨ (maze.getD b []).getD a 0 = 3 := by
  decide

theorem mazeAt_onBoard (x y : Int) (hx0 : 0 ≤ x) (hx : x ≤ 15) (hy0 : 0 ≤ y) (hy : y ≤ 11) :
    ∃ v, mazeAt x y = some v ∧ (v = 0 ∨ v = 1 ∨ v = 2 ∨ v = 3) := by
  refine ⟨(maze.getD y.toNat []).getD x.toNat 0, ?_, maze_cells y.toNat (by omega) x.toNat
    (by omega)⟩
  unfold mazeAt
  rw [if_pos ⟨hy0, by omega, hx0, by omega⟩]

theorem square_inBoard (x y : Int) (color : Nat) (hx0 : 0 ≤ x) (hx : x ≤ 15) (hy0 : 0 ≤ y)
    (hy : y ≤ 11) :
    DrawCall.inBoard { rowStart := y * 64, columnStart := x * 64, squareSize := 64,
                       color := color } := by
  unfold DrawCall.inBoard
  simp only
  omega

theorem logDraw_inv (d : DrawCall) (g : GameState) (hg : GameInv g) (hd : d.inBoard) :
    GameInv (logDraw d g) := by
  refine ⟨hg.1, ?_⟩
  intro e he
  simp only [logDraw, List.mem_append, List.mem_singleton] at he
  rcases he with he | he
  · exact hg.2 e he
  · rw [he]; exact hd

theorem refreshSquare_inv (x y : Int) (g : GameState) (hg : GameInv g)
    (hx0 : 0 ≤ x) (hx : x ≤ 15) (hy0 : 0 ≤ y) (hy : y ≤ 11) :
    ∃ g', refreshSquare x y g = some g' ∧ GameInv g'
      ∧ g'.playerX = g.playerX ∧ g'.playerY = g.playerY
      ∧ g'.currentState = g.currentState := by
  obtain ⟨v, hv, _⟩ := mazeAt_onBoard x y hx0 hx hy0 hy
  unfold refreshSquare
  rw [hv]
  simp only
  split
  · exact ⟨_, rfl, logDraw_inv _ g hg (square_inBoard x y WHITE hx0 hx hy0 hy), rfl, rfl, rfl⟩
  · split
    · exact ⟨_, rfl, logDraw_inv _ g hg (square_inBoard x y BLACK hx0 hx hy0 hy), rfl, rfl,
        rfl⟩
    · exact ⟨g, rfl, hg, rfl, rfl, rfl⟩

theorem drawPlayer_inv (color : Nat) (g : GameState) (hg : GameInv g) :
    GameInv (drawPlayer color g) ∧ (drawPlayer color g).playerX = g.playerX
      ∧ (drawPlayer color g).playerY = g.playerY
      ∧ (drawPlayer color g).currentState = g.currentState := by
  obtain ⟨h1, h2, h3, h4⟩ := hg.1
  exact ⟨logDraw_inv _ g hg (square_inBoard g.playerX g.playerY color h1 h2 h3 h4), rfl, rfl,
    rfl⟩

theorem movePlayer_inv (x y : Int) (g : GameState) (hg : GameInv g)
    (hx0 : 0 ≤ x) (hx : x ≤ 15) (hy0 : 0 ≤ y) (hy : y ≤ 11) :
    ∃ g', movePlayer x y g = some g' ∧ GameInv g' ∧ g'.playerX = x ∧ g'.playerY = y
      ∧ g'.currentState = g.currentState := by
  obtain ⟨h1, h2, h3, h4⟩ := hg.1
  obtain ⟨g1, e1, i1, _, _, c1⟩ := refreshSquare_inv g.playerX g.playerY g hg h1 h2 h3 h4
  unfold movePlayer
  rw [e1]
  have hmid : GameInv
      { playerX := x, playerY := y, currentState := g1.currentState, draws := g1.draws } :=
    ⟨⟨hx0, hx, hy0, hy⟩, i1.2⟩
  obtain ⟨a, b, c, d⟩ := drawPlayer_inv RED _ hmid
  exact ⟨_, rfl, a, b, c, by rw [d]; exact c1⟩

theorem pass_onBoard (g : GameState) (hg : GameInv g) :
    ∃ c, pass g.playerX g.playerY = some c := by
  obtain ⟨h1, h2, h3, h4⟩ := hg.1
  obtain ⟨v, hv, hcases⟩ := mazeAt_onBoard g.playerX g.playerY h1 h2 h3 h4
  unfold pass
  rw [hv]
  rcases hcases with h | h | h | h <;> subst h <;> simp

theorem onStart_inv (data : Nat) (g : GameState) (hg : GameInv g) :
    ∃ g', onStart data g = some g' ∧ GameInv g' := by
  unfold onStart
  split
  · have hd : GameInv (defaultState g) := ⟨by simp [onBoard, defaultState], hg.2⟩
    obtain ⟨g2, e2, i2, _⟩ := refreshSquare_inv (defaultState g).playerX
      (defaultState g).playerY (defaultState g) hd (by simp [defaultState])
      (by simp [defaultState]) (by simp [defaultState]) (by simp [defaultState])
    simp only [e2]
    exact ⟨_, rfl, (drawPlayer_inv RED g2 i2).1⟩
  · exact ⟨g, rfl, hg⟩

theorem onLeft_inv (data : Nat) (g : GameState) (hg : GameInv g) :
    ∃ g', onLeft data g = some g' ∧ GameInv g' := by
  obtain ⟨h1, h2, h3, h4⟩ := hg.1
  obtain ⟨c, hc⟩ := pass_onBoard g hg
  unfold onLeft
  split
  · split
    · rw [hc]
      simp only
      split
      · obtain ⟨g', e, i, _⟩ := movePlayer_inv (g.playerX - 1) g.playerY g hg (by omega)
          (by omega) h3 h4
        exact ⟨g', e, i⟩
      · exact ⟨g, rfl, hg⟩
    · exact ⟨g, rfl, hg⟩
  · exact ⟨g, rfl, hg⟩

theorem onRight_inv (data : Nat) (g : GameState) (hg : GameInv g) :
    ∃ g', onRight data g = some g' ∧ GameInv g' := by
  obtain ⟨h1, h2, h3, h4⟩ := hg.1
  obtain ⟨c, hc⟩ := pass_onBoard g hg
  unfold onRight
  split
  · split
    · rw [hc]
      simp only
      split
      · obtain ⟨g', e, i, _⟩ := movePlayer_inv (g.playerX + 1) g.playerY g hg (by omega)
          (by omega) h3 h4
        exact ⟨g', e, i⟩
      · exact ⟨g, rfl, hg⟩
    · exact ⟨g, rfl, hg⟩
  · exact ⟨g, rfl, hg⟩

theorem onUp_inv (upTest : Int → Int → Bool) (data : Nat) (g : GameState) (hg : GameInv g) :
    ∃ g', onUp upTest data g = some g' ∧ GameInv g' := by
  obtain ⟨h1, h2, h3, h4⟩ := hg.1
  unfold onUp
  split
  · split
    · split
      · obtain ⟨g', e, i, _⟩ := movePlayer_inv g.playerX (g.playerY - 1) g hg h1 h2
          (by omega) (by omega)
        exact ⟨g', e, i⟩
      · exact ⟨g, rfl, hg⟩
    · exact ⟨g, rfl, hg⟩
  · exact ⟨g, rfl, hg⟩

theorem onDown_inv (data : Nat) (g : GameState) (hg : GameInv g) :
    ∃ g', onDown data g = some g' ∧ GameInv g' := by
  obtain ⟨h1, h2, h3, h4⟩ := hg.1
  obtain ⟨c, hc⟩ := pass_onBoard g hg
  unfold onDown
  split
  · split
    · rw [hc]
      simp only
      split
      · obtain ⟨g', e, i, _⟩ := movePlayer_inv g.playerX (g.playerY + 1) g hg h1 h2
          (by omega) (by omega)
        exact ⟨g', e, i⟩
      · exact ⟨g, rfl, hg⟩
    · exact ⟨g, rfl, hg⟩
  · exact ⟨g, rfl, hg⟩

theorem onExit_inv (g : GameState) (hg : GameInv g) :
    ∃ g', onExit g = some g' ∧ GameInv g' := by
  obtain ⟨h1, h2, h3, h4⟩ := hg.1
  obtain ⟨v, hv, _⟩ := mazeAt_onBoard g.playerX g.playerY h1 h2 h3 h4
  unfold onExit
  rw [hv]
  simp only
  split
  · obtain ⟨g1, e1, i1, _⟩ := refreshSquare_inv g.playerX g.playerY g hg h1 h2 h3 h4
    rw [e1]
    exact ⟨_, rfl, (drawPlayer_inv GREEN g1 i1).1⟩
  · exact ⟨g, rfl, hg⟩

theorem mainLoopBody_inv (upTest : Int → Int → Bool) (data : Nat) (g : GameState)
    (hg : GameInv g) : ∃ g', mainLoopBody upTest data g = some g' ∧ GameInv g' := by
  unfold mainLoopBody
  by_cases hd : data ≠ g.currentState
  · obtain ⟨g1, e1, i1⟩ := onStart_inv data g hg
    obtain ⟨g2, e2, i2⟩ := onLeft_inv data g1 i1
    obtain ⟨g3, e3, i3⟩ := onRight_inv data g2 i2
    obtain ⟨g4, e4, i4⟩ := onUp_inv upTest data g3 i3
    obtain ⟨g5, e5, i5⟩ := onDown_inv data g4 i4
    have i6 : GameInv
        { playerX := g5.playerX, playerY := g5.playerY, currentState := data,
          draws := g5.draws } := ⟨i5.1, i5.2⟩
    obtain ⟨g7, e7, i7⟩ := onExit_inv _ i6
    rw [if_pos hd, e1, Option.bind, e2, Option.bind, e3, Option.bind, e4, Option.bind, e5,
      Option.bind]
    exact ⟨g7, e7, i7⟩
  · obtain ⟨g7, e7, i7⟩ := onExit_inv g hg
    rw [if_neg hd]
    exact ⟨g7, e7, i7⟩

theorem runMain_inv (upTest : Int → Int → Bool) : ∀ (snapshots : List Nat) (g : GameState),
    GameInv g → ∃ g', runMain upTest snapshots g = some g' ∧ GameInv g' := by
  intro snapshots
  induction snapshots with
  | nil => intro g hg; exact ⟨g, rfl, hg⟩
  | cons data rest ih =>
    intro g hg
    obtain ⟨g1, e1, i1⟩ := mainLoopBody_inv upTest data g hg
    obtain ⟨g2, e2, i2⟩ := ih g1 i1
    exact ⟨g2, by rw [runMain, e1]; exact e2, i2⟩

/-! ### Claims on the loop of `main` -/

/-- C24: from the initial state `playerX = playerY = 0`, for every sequence of controller
snapshots (and whatever the malformed guard of the UP branch evaluates to), the loop of
`main` runs without an access outside the table `maze`, and in the state it reaches
`0 <= playerX <= 15` and `0 <= playerY <= 11` hold, `maze[playerY][playerX]` is inside
the table, and every square drawn lies inside the 12 by 16 board of 64-pixel cells. -/
theorem main_player_on_board (upTest : Int → Int → Bool) (snapshots : List Nat) :
    ∃ g, runMain upTest snapshots initialGame = some g
      ∧ 0 ≤ g.playerX ∧ g.playerX ≤ 15 ∧ 0 ≤ g.playerY ∧ g.playerY ≤ 11
      ∧ (∃ v, mazeAt g.playerX g.playerY = some v)
      ∧ ∀ d ∈ g.draws, 0 ≤ d.rowStart ∧ d.rowStart + d.squareSize ≤ 12 * 64
          ∧ 0 ≤ d.columnStart ∧ d.columnStart + d.squareSize ≤ 16 * 64 := by
  have h0 : GameInv initialGame := by
    refine ⟨by simp [onBoard, initialGame], ?_⟩
    intro d hd
    simp [initialGame] at hd
  obtain ⟨g, e, ⟨h1, h2, h3, h4⟩, hdraw⟩ := runMain_inv upTest snapshots initialGame h0
  obtain ⟨v, hv, _⟩ := mazeAt_onBoard g.playerX g.playerY h1 h2 h3 h4
  exact ⟨g, e, h1, h2, h3, h4, ⟨v, hv⟩, hdraw⟩

/-- C25, the failing input: after the snapshot with START alone the player is on the
start cell `(0, 2)`, which holds 2; after the next snapshot, with DOWN alone, the player
is on `(0, 3)`, and `maze[3][0]` is 1, a wall. -/
theorem main_down_onto_wall :
    (runMain passTest [BUTTON_START] initialGame).map
        (fun g => (g.playerX, g.playerY, mazeAt g.playerX g.playerY))
      = some (0, 2, some 2)
    ∧ pass 0 2 = some 112
    ∧ (runMain passTest [BUTTON_START, BUTTON_DOWN] initialGame).map
        (fun g => (g.playerX, g.playerY, mazeAt g.playerX g.playerY))
      = some (0, 3, some 1) := by
  decide

end Maze
